import Mathlib

/-!
Verification of the lint-regression engine in `master/txbuildbot/lint.py`.

The Python code is shallowly embedded: Python dicts become association
lists (`List (K × List V)`), Python sets become duplicate-free lists with
membership decided by the element type's `BEq` (mirroring `__eq__`), and
text is handled as `String` / `List Char` with explicit line splitting
that mirrors `StringIO` line iteration.
-/

namespace TxBuildbot

/-! ### Python dict / set primitives -/

/-- `d.get(k, default)` / `d[k]` for a Python dict-of-sets modelled as an
association list: the set stored at the first matching key, `[]` when absent. -/
def dictGet {K V : Type} [BEq K] (d : List (K × List V)) (k : K) : List V :=
  (d.lookup k).getD []

/-- `d[k] = v` for a Python dict modelled as an association list: replace the
binding of the first matching key, or append a new binding. -/
def dictSet {K V : Type} [BEq K] (d : List (K × V)) (k : K) (v : V) : List (K × V) :=
  match d with
  | [] => [(k, v)]
  | kv :: rest => if k == kv.1 then (k, v) :: rest else kv :: dictSet rest k v

/-- Python set difference `a - b`: the elements of `a` with no `==`-equal
element in `b` (set membership uses the element type's `__eq__`, i.e. `BEq`). -/
def setDiff {V : Type} [BEq V] (a b : List V) : List V :=
  a.filter (fun x => !(b.contains x))

/-- Python `set(xs)`: keep the first representative of every `==`-class,
in first-occurrence order. -/
def setOfList {V : Type} [BEq V] (l : List V) : List V :=
  l.foldl (fun acc x => if acc.contains x then acc else acc ++ [x]) []

/-! ### LintStep.computeDifference (lint.py lines 57-79) -/

/-- `LintStep.computeDifference(current, previous)`: for every key of
`current`, subtract the baseline set `previous.get(key, set())`; keep the key
only when the difference is non-empty. -/
def computeDifference {K V : Type} [BEq K] [BEq V]
    (current previous : List (K × List V)) : List (K × List V) :=
  current.filterMap fun kv =>
    let errors := setDiff kv.2 (dictGet previous kv.1)
    if errors.isEmpty then none else some (kv.1, errors)

/-! ### Heap model of computeDifference, for the frame property

`computeDifference` manipulates Python objects by reference.  To state that it
never mutates its arguments we re-embed it over an explicit object heap:
addresses index a list of allocated objects, and allocation appends.  The
Python code allocates one fresh set per non-empty key-difference and one fresh
dict for the result, and only reads from its arguments. -/

inductive PyObj (K V : Type) where
  | pset (elems : List V)
  | pdict (entries : List (K × Nat))

/-- Read the set object stored at address `a` (empty if absent or not a set). -/
def heapSet {K V : Type} (h : List (PyObj K V)) (a : Nat) : List V :=
  match h[a]? with
  | some (.pset l) => l
  | _ => []

/-- Read the dict object stored at address `a` (empty if absent or not a dict). -/
def heapDict {K V : Type} (h : List (PyObj K V)) (a : Nat) : List (K × Nat) :=
  match h[a]? with
  | some (.pdict l) => l
  | _ => []

/-- One iteration of the `for errorType in current` loop of
`computeDifference`, on the heap: read the current set and the baseline set,
compute the difference, and on a non-empty difference allocate it as a fresh
set object recorded in the result dict's entry list. -/
def cdStep {K V : Type} [BEq K] [BEq V] (pentries : List (K × Nat))
    (acc : List (PyObj K V) × List (K × Nat)) (kv : K × Nat) :
    List (PyObj K V) × List (K × Nat) :=
  let curSet := heapSet acc.1 kv.2
  let prevSet := match pentries.lookup kv.1 with
    | some pa => heapSet acc.1 pa
    | none => []
  let errors := setDiff curSet prevSet
  if errors.isEmpty then acc
  else (acc.1 ++ [PyObj.pset errors], acc.2 ++ [(kv.1, acc.1.length)])

/-- `computeDifference` on the heap: iterate the current dict's entries and
allocate the result dict at the end.  Returns the extended heap and the
address of the freshly built result dict. -/
def computeDifferenceH {K V : Type} [BEq K] [BEq V]
    (h : List (PyObj K V)) (cur prev : Nat) : List (PyObj K V) × Nat :=
  let res := (heapDict h cur).foldl (cdStep (heapDict h prev)) (h, [])
  (res.1 ++ [PyObj.pdict res.2], res.1.length)

/-- Concrete four-object heap: a set `{1, 2}` at address 0, a set `{2}` at
address 1, the dict `{'k': {1, 2}}` at address 2 and the dict `{'k': {2}}`
at address 3. -/
def exHeap : List (PyObj String Nat) :=
  [PyObj.pset [1, 2], PyObj.pset [2], PyObj.pdict [("k", 0)], PyObj.pdict [("k", 1)]]

/-! ### Text primitives mirroring the Python string operations used -/

/-- Python `str.strip()` / regex `\s` whitespace class (ASCII):
space, tab, newline, carriage return, vertical tab, form feed. -/
def pySpace (c : Char) : Bool :=
  c == ' ' || c == '\t' || c == '\n' || c == '\r' ||
    c == Char.ofNat 11 || c == Char.ofNat 12

/-- Split a character list at every occurrence of `sep` (like Python
`str.split(sep)`: n separators yield n+1 pieces, `[[]]` on empty input). -/
def splitAllCh (sep : Char) : List Char → List (List Char)
  | [] => [[]]
  | c :: rest =>
    let r := splitAllCh sep rest
    if c = sep then [] :: r
    else match r with
      | [] => [[c]]
      | l :: ls => (c :: l) :: ls

/-- Join pieces with a separator character (inverse of `splitAllCh`). -/
def joinSep (sep : Char) : List (List Char) → List Char
  | [] => []
  | [l] => l
  | l :: ls => l ++ sep :: joinSep sep ls

/-- The list of lines seen by `for line in StringIO.StringIO(text)` with the
trailing newlines already removed: split at `'\n'`, dropping the final empty
piece a trailing newline produces (and yielding no lines on empty input). -/
def pyLines (s : List Char) : List (List Char) :=
  let r := splitAllCh '\n' s
  if r.getLast? = some [] then r.dropLast else r

/-- Python `str.strip()`: drop ASCII whitespace from both ends. -/
def pyStrip (l : List Char) : List Char :=
  ((l.dropWhile pySpace).reverse.dropWhile pySpace).reverse

/-- Python `needle in hay` substring containment. -/
def containsSub (needle : List Char) : List Char → Bool
  | [] => needle.isEmpty
  | c :: rest => needle.isPrefixOf (c :: rest) || containsSub needle rest

/-- Python `s.split(sep, 1)` when it must yield exactly two pieces (the source
unpacks the result into two names, so a missing separator raises
`ValueError`, modelled as `none`). -/
def splitFirstAt (sep : Char) : List Char → Option (List Char × List Char)
  | [] => none
  | c :: rest =>
    if c = sep then some ([], rest)
    else (splitFirstAt sep rest).map (fun p => (c :: p.1, p.2))

/-- Python `s.split(':')` unpacked into exactly two names: succeeds exactly
when `s` contains a single colon, `ValueError` (`none`) otherwise. -/
def splitColon2 (l : List Char) : Option (List Char × List Char) :=
  match splitAllCh ':' l with
  | [a, b] => some (a, b)
  | _ => none

/-- Python `s.replace(pat, '')`, fuelled so the recursion is structural: each
step consumes at least one character, so fuel `= length` never runs out. -/
def replaceOccFuel (pat : List Char) : Nat → List Char → List Char
  | 0, l => l
  | _, [] => []
  | fuel + 1, c :: rest =>
    if pat ≠ [] ∧ pat.isPrefixOf (c :: rest) = true then
      replaceOccFuel pat fuel (List.drop pat.length (c :: rest))
    else c :: replaceOccFuel pat fuel rest

/-- Python `s.replace(pat, '')`: remove every (leftmost-first) occurrence of
`pat`. -/
def replaceOcc (pat l : List Char) : List Char :=
  replaceOccFuel pat l.length l

/-- Python 2 string `<`: lexicographic comparison of the character codes. -/
def lexLtCh : List Char → List Char → Bool
  | [], [] => false
  | [], _ :: _ => true
  | _ :: _, [] => false
  | a :: as, b :: bs =>
    if a.toNat < b.toNat then true else if a = b then lexLtCh as bs else false

/-- The `≤` used to model Python's ascending stable sort on character lists:
`a ≤ b` iff `¬ b < a`. -/
def lexLeCh (a b : List Char) : Bool := !(lexLtCh b a)

/-- Python string `<` on `String`. -/
def strLt (a b : String) : Bool := lexLtCh a.data b.data

/-- Python string `≤` on `String`. -/
def strLe (a b : String) : Bool := !(strLt b a)

/-- Python's stable ascending `sorted`, modelled as insertion sort with a
total boolean `≤`. -/
def pySorted {α : Type} (le : α → α → Bool) : List α → List α
  | [] => []
  | x :: rest => pyInsert le x (pySorted le rest)
where
  /-- Insert `x` before the first element it is `≤`-below-or-equal, keeping
  the sort stable. -/
  pyInsert (le : α → α → Bool) (x : α) : List α → List α
  | [] => [x]
  | y :: ys => if le x y then x :: y :: ys else y :: pyInsert le x ys

/-! ### Build history: LintStep._getLastBuild / getPreviousLog (lines 82-126)

The CI host's per-build status objects are modelled by the data the engine
reads from them: the recorded `branch` property (empty string for an
empty/absent property, which Python treats as falsy) and the list of named
logs.  A builder's history is a partial map from build numbers to statuses
(`none` = the build does not exist). -/

structure BuildStatus where
  branch : String
  logs : List (String × String)
deriving DecidableEq

/-- The body of the `for i in range(1, 11)` loop of `_getLastBuild`:
skip a missing build, return an existing build when its branch property is
falsy, skip it otherwise. -/
def buildCandidate (builder : Int → Option BuildStatus) (number : Int) (i : Nat) :
    Option BuildStatus :=
  match builder (number - (i : Int)) with
  | none => none
  | some b => if b.branch = "" then some b else none

/-- `LintStep._getLastBuild`: `None` for the very first build, otherwise the
first build among numbers `number-1 .. number-10` that exists and has a falsy
branch property. -/
def _getLastBuild (builder : Int → Option BuildStatus) (number : Int) :
    Option BuildStatus :=
  if number = 0 then none
  else (List.range' 1 10).findSome? (buildCandidate builder number)

/-- `LintStep.getPreviousLog`: the text of the located baseline build's log
named `'<lintChecker> errors'`, or `""` when there is no such build or no such
log. -/
def getPreviousLog (builder : Int → Option BuildStatus) (number : Int)
    (lintChecker : String) : String :=
  match _getLastBuild builder number with
  | none => ""
  | some build =>
    match build.logs.find? (fun l => l.1 == lintChecker ++ " errors") with
    | some l => l.2
    | none => ""

/-! ### Step results: LintStep.evaluateCommand (lines 129-132) -/

inductive StepResult where
  | SUCCESS
  | WARNINGS
  | FAILURE
deriving DecidableEq

/-- The inherited `ShellCommand.evaluateCommand` of the host CI library
(an external collaborator, not part of this repository): judge the wrapped
command by its exit code alone — `FAILURE` on a nonzero `rc`, `SUCCESS`
otherwise. -/
def shellCommandEvaluate (rc : Int) : StepResult :=
  if rc ≠ 0 then StepResult.FAILURE else StepResult.SUCCESS

/-- `LintStep.evaluateCommand`: `FAILURE` when the build is worse (new lint
findings appeared), otherwise defer to the inherited `ShellCommand`
judgment of the exit code. -/
def evaluateCommand (worse : Bool) (rc : Int) : StepResult :=
  if worse then StepResult.FAILURE else shellCommandEvaluate rc

/-- `LintStep.processLogs` (lines 26-39), generic in the adapter's
`computeErrors` / `formatErrors`: publish the full current findings as
`'<lintChecker> errors'`, diff against the baseline, publish
`'new <lintChecker> errors'` exactly when the diff is non-empty, and report
whether the build got worse.  Returns the published `(name, text)` logs in
order together with the `worse` flag. -/
def processLogs {K V : Type} [BEq K] [BEq V]
    (computeErrors : String → List (K × List V))
    (formatErrors : List (K × List V) → List String)
    (lintChecker : String) (oldText newText : String) :
    List (String × String) × Bool :=
  let currentErrors := computeErrors newText
  let previousErrors := computeErrors oldText
  let logs0 := [(lintChecker ++ " errors", String.intercalate "\n" (formatErrors currentErrors))]
  let newErrors := computeDifference currentErrors previousErrors
  let logs1 := if newErrors.isEmpty then logs0
    else logs0 ++ [("new " ++ lintChecker ++ " errors",
      String.intercalate "\n" (formatErrors newErrors))]
  (logs1, !newErrors.isEmpty)


/-! ### CheckDocumentation (pydoctor adapter, lines 136-188) -/

/-- `dict.setdefault(key, set()).add(value)`: add `value` to the set stored
at `key`, creating the binding if needed; the set ignores `==`-duplicates. -/
def dictAddToSet {K V : Type} [BEq K] [BEq V]
    (d : List (K × List V)) (k : K) (v : V) : List (K × List V) :=
  match d with
  | [] => [(k, [v])]
  | kv :: rest =>
    if k == kv.1 then (kv.1, if kv.2.contains v then kv.2 else kv.2 ++ [v]) :: rest
    else kv :: dictAddToSet rest k v

namespace CheckDocumentation

/-- Classify one raw log line exactly as the `for line in StringIO(logText)`
body of `CheckDocumentation.computeErrors` does: strip it; an
`'invalid ref to'` line is keyed `'invalid ref'` with the line number
discarded from its stored value; a `'found unknown field on'` line is keyed
`'unknown fields'` verbatim; anything else is skipped.  The outer `none`
models the `ValueError` the two tuple-unpacked `split` calls raise on a
malformed `'invalid ref to'` line; the inner `none` is a skipped line.
`invalidRefValue` is the `'invalid ref'` arm: split off the first word
`fqpn:lineno`, split that at its colon, and rebuild the value as
`'%s: %s' % (fqpn, rest)` — the line number is discarded. -/
def invalidRefValue (line : List Char) : Option (List Char) :=
  match splitFirstAt ' ' line with
  | none => none
  | some (fqpnlineno, rest) =>
    match splitColon2 fqpnlineno with
    | none => none
    | some (fqpn, _lineno) => some (fqpn ++ ':' :: ' ' :: rest)

/-- The branch dispatch of the parsing loop, on one (already stripped)
line. -/
def lineKV (rawLine : List Char) : Option (Option (String × List Char)) :=
  let line := pyStrip rawLine
  if containsSub "invalid ref to".data line then
    match invalidRefValue line with
    | none => none
    | some v => some (some ("invalid ref", v))
  else if containsSub "found unknown field on".data line then
    some (some ("unknown fields", line))
  else some none

/-- `CheckDocumentation.computeErrors` over an explicit line list: fold the
per-line classification into the grouped error dict, propagating the
`ValueError` of a malformed line. -/
def computeErrorsLines (ls : List (List Char)) :
    Option (List (String × List (List Char))) :=
  ls.foldlM
    (fun errors line =>
      (lineKV line).map fun kv? =>
        match kv? with
        | none => errors
        | some (k, v) => dictAddToSet errors k v)
    []

/-- `CheckDocumentation.computeErrors(logText)`. -/
def computeErrors (logText : String) : Option (List (String × List (List Char))) :=
  computeErrorsLines (pyLines logText.data)

/-- `CheckDocumentation.formatErrors`: flatten every group's findings into one
list and sort it (Python `list.sort()` on strings). -/
def formatErrors (newErrors : List (String × List (List Char))) : List (List Char) :=
  pySorted lexLeCh (newErrors.foldl (fun acc kv => acc ++ kv.2) [])

end CheckDocumentation

/-! ### TwistedCheckerError (lines 191-225) -/

structure TwistedCheckerError where
  msg : String
  type : String
  line : String
  indent : String
  text : String
deriving DecidableEq

/-- The regex `^(?P<type>[WCEFR]\d{4}):(?P<line>\s*\d+),(?P<indent>\d+):(?P<text>.*)`
as a deterministic matcher (every adjacent pair of sub-patterns has disjoint
character classes, so greedy matching never backtracks; `.` excludes the
newline).  Returns the four captured groups. -/
def tceMatch (l : List Char) : Option (String × String × String × String) :=
  match l with
  | c :: d1 :: d2 :: d3 :: d4 :: ':' :: rest =>
    if (c == 'W' || c == 'C' || c == 'E' || c == 'F' || c == 'R')
        && d1.isDigit && d2.isDigit && d3.isDigit && d4.isDigit then
      let ws := rest.takeWhile pySpace
      let afterWs := rest.dropWhile pySpace
      let ds := afterWs.takeWhile Char.isDigit
      let afterDs := afterWs.dropWhile Char.isDigit
      if ds.isEmpty then none
      else
        match afterDs with
        | ',' :: r2 =>
          let ds2 := r2.takeWhile Char.isDigit
          let r3 := r2.dropWhile Char.isDigit
          if ds2.isEmpty then none
          else
            match r3 with
            | ':' :: r4 =>
              some (⟨[c, d1, d2, d3, d4]⟩, ⟨ws ++ ds⟩, ⟨ds2⟩,
                ⟨r4.takeWhile (fun ch => ch != '\n')⟩)
            | _ => none
        | _ => none
    else none
  | _ => none

/-- `TwistedCheckerError.__init__`: keep the raw message; fill the four
fields from the regex when it matches, and with the documented sentinels
(`"UXXXX"`, `"9999"`, `"9"`, `"Unparseable"`) when it does not. -/
def mkTwistedCheckerError (msg : String) : TwistedCheckerError :=
  match tceMatch msg.data with
  | some (t, ln, ind, tx) => ⟨msg, t, ln, ind, tx⟩
  | none => ⟨msg, "UXXXX", "9999", "9", "Unparseable"⟩

/-- `FancyEqMixin` with `compareAttributes = ('type', 'text')`, and
`__hash__ = hash((type, text))`: equality (and hashing) looks only at the
`type` and `text` fields. -/
instance : BEq TwistedCheckerError :=
  ⟨fun a b => a.type == b.type && a.text == b.text⟩

/-- `TwistedCheckerError.__cmp__`: strict comparison of the tuples
`(line, indent, type, text)`. -/
def tceLtb (a b : TwistedCheckerError) : Bool :=
  strLt a.line b.line || (a.line == b.line && (strLt a.indent b.indent ||
    (a.indent == b.indent && (strLt a.type b.type ||
      (a.type == b.type && strLt a.text b.text)))))

/-- The `≤` induced by `__cmp__`, used by `sorted`: `a ≤ b` iff `¬ b < a`. -/
def tceLeb (a b : TwistedCheckerError) : Bool := !(tceLtb b a)

/-! ### CheckCodesByTwistedChecker (lines 228-298) -/

namespace CheckCodesByTwistedChecker

/-- The class attribute `prefixModuleName = "************* Module "`. -/
def prefixModuleName : List Char := "************* Module ".data

/-- `re.search("^[WCEFR]\d{4}\:", line)`: with the `^` anchor and no
MULTILINE flag this holds exactly when the line starts with a severity
letter, four digits and a colon. -/
def lineStartsFinding (l : List Char) : Bool :=
  match l with
  | c :: d1 :: d2 :: d3 :: d4 :: ':' :: _ =>
    (c == 'W' || c == 'C' || c == 'E' || c == 'F' || c == 'R')
      && d1.isDigit && d2.isDigit && d3.isDigit && d4.isDigit
  | _ => false

/-- `warningsCurrentModule[-1] += "\n" + line`: merge a continuation line
into the last accumulated finding text. -/
def appendToLast (wcm : List (List Char)) (l : List Char) : List (List Char) :=
  match wcm with
  | [] => []
  | [w] => [w ++ '\n' :: l]
  | w :: rest => w :: appendToLast rest l

/-- The `if currentModule: warnings[currentModule] = set(map(TwistedCheckerError,
warningsCurrentModule))` save step.  Python's truthiness makes both `None` and
the empty module name skip the save. -/
def saveModule (warnings : List (String × List TwistedCheckerError))
    (cm : Option String) (wcm : List (List Char)) :
    List (String × List TwistedCheckerError) :=
  match cm with
  | none => warnings
  | some m =>
    if m = "" then warnings
    else dictSet warnings m (setOfList (wcm.map (fun w => mkTwistedCheckerError ⟨w⟩)))

/-- The `for line in StringIO.StringIO(logText)` loop of
`CheckCodesByTwistedChecker.computeErrors`, with its three running state
variables (`warnings`, `currentModule`, `warningsCurrentModule`) made
explicit: a module-header line saves the current module and opens a new one,
a finding-start line opens a new finding, and any other line is appended to
the previous finding when one exists and otherwise dropped with a log
message. -/
def computeErrorsLoop :
    List (List Char) → List (String × List TwistedCheckerError) →
    Option String → List (List Char) → List (String × List TwistedCheckerError)
  | [], warnings, cm, wcm => saveModule warnings cm wcm
  | line :: rest, warnings, cm, wcm =>
    if prefixModuleName.isPrefixOf line then
      computeErrorsLoop rest (saveModule warnings cm wcm)
        (some ⟨replaceOcc prefixModuleName line⟩) []
    else if lineStartsFinding line then
      computeErrorsLoop rest warnings cm (wcm ++ [line])
    else if wcm.isEmpty then
      computeErrorsLoop rest warnings cm wcm
    else
      computeErrorsLoop rest warnings cm (appendToLast wcm line)

/-- `CheckCodesByTwistedChecker.computeErrors(logText)`. -/
def computeErrors (logText : String) : List (String × List TwistedCheckerError) :=
  computeErrorsLoop (pyLines logText.data) [] none []

/-- `CheckCodesByTwistedChecker.formatErrors`: iterate module names in sorted
order, emit the reconstructed `'************* Module <name>'` header followed
by the module's findings sorted by `__cmp__`, and render each entry with
`str` (the header strings unchanged, a finding by its raw message). -/
def formatErrors (newErrors : List (String × List TwistedCheckerError)) :
    List String :=
  (pySorted strLe (newErrors.map Prod.fst)).flatMap fun modulename =>
    (⟨prefixModuleName⟩ ++ modulename) ::
      (pySorted tceLeb (dictGet newErrors modulename)).map (fun e => e.msg)

/-- `".".join(k.split(".")[0:2])`: the top-level (two-component) package of a
module name, the `itertools.groupby` key of `processLogs`. -/
def toplevelOf (s : String) : String :=
  ⟨joinSep '.' ((splitAllCh '.' s.data).take 2)⟩

/-- `itertools.groupby`: group consecutive elements with equal keys. -/
def groupConsecutive (keyOf : String → String) : List String → List (String × List String)
  | [] => []
  | x :: rest =>
    match groupConsecutive keyOf rest with
    | [] => [(keyOf x, [x])]
    | (k, g) :: gs =>
      if keyOf x == k then (k, x :: g) :: gs
      else (keyOf x, [x]) :: (k, g) :: gs

/-- `CheckCodesByTwistedChecker.processLogs` (lines 280-298): this override
publishes one `'twistedchecker <toplevel> errors'` artifact per top-level
package of the current findings (the single `'twistedchecker errors'`
artifact of the base class is commented out in the source), then the usual
`'new twistedchecker errors'` artifact exactly when the diff is non-empty. -/
def processLogs (oldText newText : String) : List (String × String) × Bool :=
  let currentErrors := computeErrors newText
  let previousErrors := computeErrors oldText
  let groups := groupConsecutive toplevelOf (pySorted strLe (currentErrors.map Prod.fst))
  let logs0 := groups.map fun g =>
    ("twistedchecker " ++ g.1 ++ " errors",
      String.intercalate "\n" (formatErrors (g.2.map fun m => (m, dictGet currentErrors m))))
  let newErrors := computeDifference currentErrors previousErrors
  let logs1 := if newErrors.isEmpty then logs0
    else logs0 ++ [("new twistedchecker errors",
      String.intercalate "\n" (formatErrors newErrors))]
  (logs1, !newErrors.isEmpty)

end CheckCodesByTwistedChecker

/-- Pairwise `==`-distinctness (both orientations), the condition under which
Python's `set(...)` construction drops nothing. -/
def allDistinctB {V : Type} [BEq V] : List V → Bool
  | [] => true
  | x :: rest => rest.all (fun y => !(x == y) && !(y == x)) && allDistinctB rest

namespace CheckCodesByTwistedChecker

/-- The raw text pieces recoverable from a parsed twistedchecker map: for each
module in insertion order, the reconstructed `'************* Module <name>'`
header line followed by each finding's raw message. -/
def reconstructPieces (m : List (String × List TwistedCheckerError)) :
    List (List Char) :=
  m.flatMap fun g => (prefixModuleName ++ g.1.data) :: g.2.map (fun e => e.msg.data)

/-- The text pieces still held in the loop's running state: the current
module's header line followed by its accumulated finding texts. -/
def blockPieces (cm : Option String) (wcm : List (List Char)) : List (List Char) :=
  match cm with
  | none => []
  | some m => (prefixModuleName ++ m.data) :: wcm

/-- A module save loses nothing exactly when the module name is non-empty
(Python truthiness), not yet a key of the dict (no overwrite), and its
accumulated findings are pairwise `==`-distinct (no `set` collapse). -/
def saveOk (warnKeys : List String) (cm : Option String)
    (wcm : List (List Char)) : Bool :=
  match cm with
  | none => true
  | some m =>
    !(m == "") && !(warnKeys.contains m) &&
      allDistinctB (wcm.map (fun w => mkTwistedCheckerError ⟨w⟩))

/-- The key list after a save. -/
def pushKey (warnKeys : List String) (cm : Option String) : List String :=
  match cm with
  | none => warnKeys
  | some m => warnKeys ++ [m]

/-- A header line is faithfully invertible when re-attaching the prefix to the
stored module name reproduces it (i.e. the name holds no further copies of the
prefix for `str.replace` to eat). -/
def headerOk (line : List Char) : Bool :=
  prefixModuleName ++ replaceOcc prefixModuleName line == line

/-- Well-formedness of a twistedchecker log, walked with the same state as the
parsing loop: every save is lossless, every header is invertible, findings
only start inside a module, and continuation lines only follow a finding. -/
def wfWalk : List (List Char) → List String → Option String → List (List Char) → Bool
  | [], warnKeys, cm, wcm => saveOk warnKeys cm wcm
  | line :: rest, warnKeys, cm, wcm =>
    if prefixModuleName.isPrefixOf line then
      saveOk warnKeys cm wcm && headerOk line &&
        wfWalk rest (pushKey warnKeys cm) (some ⟨replaceOcc prefixModuleName line⟩) []
    else if lineStartsFinding line then
      cm.isSome && wfWalk rest warnKeys cm (wcm ++ [line])
    else
      !wcm.isEmpty && wfWalk rest warnKeys cm (appendToLast wcm line)

end CheckCodesByTwistedChecker

/-! ### Formatter contracts written from the spec's words, for comparison -/

/-- Modelled from the spec (§4.3 Formatter): "iterate group keys in sorted
order, and within a group render Findings in their defined sort order" — with
no group headers, since pydoctor's grouping is not module-scoped. -/
def specGroupedFormat (m : List (String × List (List Char))) : List (List Char) :=
  (pySorted strLe (m.map Prod.fst)).flatMap fun k => pySorted lexLeCh (dictGet m k)

/-- Modelled from the spec (§4.3 Formatter) for the module-grouped tool:
iterate group keys in sorted order, prefix each group's rendering with a
header line reproducing the original delimiter text, and render the group's
findings in their defined sort order. -/
def specFormatTwistedchecker (m : List (String × List TwistedCheckerError)) :
    List String :=
  (pySorted strLe (m.map Prod.fst)).flatMap fun k =>
    (⟨CheckCodesByTwistedChecker.prefixModuleName⟩ ++ k) ::
      (pySorted tceLeb (dictGet m k)).map (fun e => e.msg)

theorem computeDifference_cons {K V : Type} [BEq K] [BEq V]
    (a1 : K) (a2 : List V) (cur prev : List (K × List V)) :
    computeDifference ((a1, a2) :: cur) prev =
      (if (setDiff a2 (dictGet prev a1)).isEmpty then computeDifference cur prev
       else (a1, setDiff a2 (dictGet prev a1)) :: computeDifference cur prev) := by
  by_cases h : (setDiff a2 (dictGet prev a1)).isEmpty <;>
    simp [computeDifference, List.filterMap_cons, h]

theorem lookup_eq_none_of_not_mem {K V : Type} [BEq K] [LawfulBEq K]
    (l : List (K × V)) (k : K) (h : k ∉ l.map Prod.fst) : l.lookup k = none := by
  induction l with
  | nil => rfl
  | cons a rest ih =>
    simp only [List.map_cons, List.mem_cons] at h
    push_neg at h
    have hbeq : (k == a.1) = false := beq_false_of_ne h.1
    simp [List.lookup, hbeq, ih h.2]

theorem mem_computeDifference {K V : Type} [BEq K] [BEq V]
    (cur prev : List (K × List V)) (kv : K × List V) :
    kv ∈ computeDifference cur prev ↔
      ∃ c, (kv.1, c) ∈ cur ∧ kv.2 = setDiff c (dictGet prev kv.1) ∧ kv.2 ≠ [] := by
  induction cur with
  | nil => simp [computeDifference]
  | cons a rest ih =>
    obtain ⟨a1, a2⟩ := a
    rw [computeDifference_cons]
    by_cases h : (setDiff a2 (dictGet prev a1)).isEmpty
    · rw [if_pos h, ih]
      constructor
      · rintro ⟨c, hc, hs, hne⟩
        exact ⟨c, List.mem_cons_of_mem _ hc, hs, hne⟩
      · rintro ⟨c, hc, hs, hne⟩
        rcases List.mem_cons.mp hc with heq | hmem
        · exfalso
          rw [Prod.mk.injEq] at heq
          rw [List.isEmpty_iff] at h
          rw [heq.1, heq.2, h] at hs
          exact hne hs
        · exact ⟨c, hmem, hs, hne⟩
    · rw [if_neg h]
      constructor
      · intro hmem
        rcases List.mem_cons.mp hmem with heq | hmem2
        · refine ⟨a2, ?_, ?_, ?_⟩
          · rw [show kv.1 = a1 from by rw [heq]]
            exact List.mem_cons_self _ _
          · rw [heq]
          · rw [heq]
            intro hnil
            rw [← List.isEmpty_iff] at hnil
            exact h hnil
        · rcases ih.mp hmem2 with ⟨c, hc, hs, hne⟩
          exact ⟨c, List.mem_cons_of_mem _ hc, hs, hne⟩
      · rintro ⟨c, hc, hs, hne⟩
        rcases List.mem_cons.mp hc with heq | hmem2
        · rw [Prod.mk.injEq] at heq
          apply List.mem_cons.mpr
          left
          rw [show kv = (kv.1, kv.2) from rfl, hs, heq.1, heq.2]
        · exact List.mem_cons_of_mem _ (ih.mpr ⟨c, hmem2, hs, hne⟩)

theorem lookup_computeDifference {K V : Type} [BEq K] [LawfulBEq K] [BEq V]
    (cur prev : List (K × List V)) (hnd : (cur.map Prod.fst).Nodup) (k : K) :
    (computeDifference cur prev).lookup k =
      (cur.lookup k).bind (fun c =>
        if (setDiff c (dictGet prev k)).isEmpty then none
        else some (setDiff c (dictGet prev k))) := by
  induction cur with
  | nil => simp [computeDifference]
  | cons a rest ih =>
    obtain ⟨a1, a2⟩ := a
    simp only [List.map_cons, List.nodup_cons] at hnd
    rw [computeDifference_cons]
    by_cases hk : k = a1
    · have hbeq : (k == a1) = true := beq_iff_eq.mpr hk
      by_cases h : (setDiff a2 (dictGet prev a1)).isEmpty
      · rw [if_pos h]
        have hnone : (computeDifference rest prev).lookup k = none := by
          apply lookup_eq_none_of_not_mem
          rw [hk]
          intro hmem
          rcases List.mem_map.mp hmem with ⟨kv, hkv, hfst⟩
          rcases (mem_computeDifference rest prev kv).mp hkv with ⟨c, hc, _, _⟩
          exact hnd.1 (List.mem_map.mpr ⟨(kv.1, c), hc, hfst⟩)
        rw [hnone]
        rw [hk] at *
        simp [List.lookup, h]
      · rw [if_neg h]
        rw [hk] at *
        simp [List.lookup, h]
    · have hbeq : (k == a1) = false := beq_false_of_ne hk
      by_cases h : (setDiff a2 (dictGet prev a1)).isEmpty
      · rw [if_pos h, ih hnd.2]
        simp [List.lookup, hbeq]
      · rw [if_neg h]
        simp only [List.lookup, hbeq]
        exact ih hnd.2

theorem mem_setDiff {V : Type} [BEq V] [LawfulBEq V] (a b : List V) (x : V) :
    x ∈ setDiff a b ↔ x ∈ a ∧ x ∉ b := by
  simp [setDiff, List.mem_filter]

theorem lookup_eq_some_mem {K V : Type} [BEq K] [LawfulBEq K]
    (l : List (K × V)) (k : K) (v : V) (h : l.lookup k = some v) : (k, v) ∈ l := by
  induction l with
  | nil => simp [List.lookup] at h
  | cons a rest ih =>
    by_cases hk : k = a.1
    · have hbeq : (k == a.1) = true := beq_iff_eq.mpr hk
      simp only [List.lookup, hbeq] at h
      have hv : a.2 = v := by
        simpa using h
      apply List.mem_cons.mpr
      left
      rw [hk, ← hv, Prod.mk.eta]
    · have hbeq : (k == a.1) = false := beq_false_of_ne hk
      simp only [List.lookup, hbeq] at h
      exact List.mem_cons_of_mem _ (ih h)

theorem mem_lookup_eq_of_nodup {K V : Type} [BEq K] [LawfulBEq K]
    (l : List (K × V)) (hnd : (l.map Prod.fst).Nodup) (kv : K × V)
    (h : kv ∈ l) : l.lookup kv.1 = some kv.2 := by
  induction l with
  | nil => simp at h
  | cons a rest ih =>
    simp only [List.map_cons, List.nodup_cons] at hnd
    rcases List.mem_cons.mp h with heq | hmem
    · rw [heq]
      simp [List.lookup]
    · have hne : kv.1 ≠ a.1 := by
        intro hcontra
        exact hnd.1 (hcontra ▸ List.mem_map.mpr ⟨kv, hmem, rfl⟩)
      simp only [List.lookup, beq_false_of_ne hne]
      exact ih hnd.2 hmem

/-- C1: For every pair of dict-of-sets `(current, previous)` with duplicate-free
keys, the result of `computeDifference` binds exactly those keys of `current`
whose set difference against `previous.get(k, {})` is non-empty, to that
difference; keys only in `previous` never appear; no result set is empty, each
is a subset of `current[k]` disjoint from `previous.get(k, {})`; and
`computeDifference m m = {}`. -/
theorem computeDifference_spec {K V : Type} [BEq K] [LawfulBEq K] [BEq V] [LawfulBEq V]
    (current previous : List (K × List V))
    (hnd : (current.map Prod.fst).Nodup) :
    (∀ k s, (computeDifference current previous).lookup k = some s ↔
        (∃ c, current.lookup k = some c ∧ s = setDiff c (dictGet previous k) ∧ s ≠ []))
    ∧ (∀ kv, kv ∈ computeDifference current previous →
        kv.2 ≠ [] ∧ ∀ x, x ∈ kv.2 → x ∈ dictGet current kv.1 ∧ x ∉ dictGet previous kv.1)
    ∧ (∀ k, current.lookup k = none → (computeDifference current previous).lookup k = none)
    ∧ computeDifference current current = [] := by
  refine ⟨?_, ?_, ?_, ?_⟩
  · intro k s
    rw [lookup_computeDifference current previous hnd k]
    constructor
    · intro h
      rcases Option.bind_eq_some.mp h with ⟨c, hc, hif⟩
      by_cases hcase : (setDiff c (dictGet previous k)).isEmpty
      · rw [if_pos hcase] at hif
        exact absurd hif (by simp)
      · rw [if_neg hcase] at hif
        have hs : setDiff c (dictGet previous k) = s := by simpa using hif
        refine ⟨c, hc, hs.symm, ?_⟩
        rw [← hs]
        intro hnil
        rw [← List.isEmpty_iff] at hnil
        exact hcase hnil
    · rintro ⟨c, hc, hs, hne⟩
      rw [hc]
      have hcase : ¬ (setDiff c (dictGet previous k)).isEmpty = true := by
        rw [List.isEmpty_iff]
        rw [hs] at hne
        exact hne
      simp [hcase, hs]
  · intro kv hmem
    rcases (mem_computeDifference current previous kv).mp hmem with ⟨c, hc, hs, hne⟩
    refine ⟨hne, ?_⟩
    intro x hx
    rw [hs] at hx
    rcases (mem_setDiff c (dictGet previous kv.1) x).mp hx with ⟨hxc, hxp⟩
    refine ⟨?_, hxp⟩
    have hlook : current.lookup kv.1 = some c :=
      mem_lookup_eq_of_nodup current hnd (kv.1, c) hc
    simp [dictGet, hlook, hxc]
  · intro k hk
    rw [lookup_computeDifference current previous hnd k, hk]
    rfl
  · have hall : ∀ kv, kv ∈ current → (setDiff kv.2 (dictGet current kv.1)).isEmpty = true := by
      intro kv hkv
      rw [List.isEmpty_iff, List.eq_nil_iff_forall_not_mem]
      intro x hx
      rcases (mem_setDiff _ _ x).mp hx with ⟨hxa, hxb⟩
      apply hxb
      have hlook : current.lookup kv.1 = some kv.2 :=
        mem_lookup_eq_of_nodup current hnd kv hkv
      simp [dictGet, hlook, hxa]
    rw [computeDifference, List.filterMap_eq_nil_iff]
    intro kv hkv
    simp [hall kv hkv]

/-- Witness for C1 at the spec's partial-overlap example
`current={'stuff': {'a','b'}}`, `previous={'stuff': {'a'}, 'other': {'x','y'}}`. -/
theorem computeDifference_spec_witness :
    ((([("stuff", ["a", "b"])] : List (String × List String)).map Prod.fst).Nodup)
    ∧ (∀ k s, (computeDifference [("stuff", ["a", "b"])]
          [("stuff", ["a"]), ("other", ["x", "y"])]).lookup k = some s ↔
        (∃ c, ([("stuff", ["a", "b"])] : List (String × List String)).lookup k = some c ∧
          s = setDiff c (dictGet [("stuff", ["a"]), ("other", ["x", "y"])] k) ∧ s ≠ []))
    ∧ (∀ kv, kv ∈ computeDifference [("stuff", ["a", "b"])]
          [("stuff", ["a"]), ("other", ["x", "y"])] →
        kv.2 ≠ [] ∧ ∀ x, x ∈ kv.2 →
          x ∈ dictGet [("stuff", ["a", "b"])] kv.1 ∧
          x ∉ dictGet [("stuff", ["a"]), ("other", ["x", "y"])] kv.1)
    ∧ (∀ k, ([("stuff", ["a", "b"])] : List (String × List String)).lookup k = none →
        (computeDifference [("stuff", ["a", "b"])]
          [("stuff", ["a"]), ("other", ["x", "y"])]).lookup k = none)
    ∧ computeDifference [("stuff", ["a", "b"])] [("stuff", ["a", "b"])] = [] := by
  have h := computeDifference_spec [("stuff", ["a", "b"])]
    [("stuff", ["a"]), ("other", ["x", "y"])] (by decide)
  have h2 := computeDifference_spec [("stuff", ["a", "b"])]
    [("stuff", ["a", "b"])] (by decide)
  exact ⟨by decide, h.1, h.2.1, h.2.2.1, h2.2.2.2⟩

theorem getElem?_append_lt {α : Type} (l t : List α) (n : Nat) (h : n < l.length) :
    (l ++ t)[n]? = l[n]? := by
  rw [List.getElem?_append, if_pos h]

theorem heapSet_append_lt {K V : Type} (h t : List (PyObj K V)) (a : Nat)
    (ha : a < h.length) : heapSet (h ++ t) a = heapSet h a := by
  unfold heapSet
  rw [getElem?_append_lt _ _ _ ha]

theorem lookup_map_snd {K V W : Type} [BEq K] (l : List (K × V)) (f : V → W) (k : K) :
    (l.map (fun kv => (kv.1, f kv.2))).lookup k = (l.lookup k).map f := by
  induction l with
  | nil => rfl
  | cons a rest ih =>
    by_cases hk : (k == a.1) = true
    · simp [List.lookup, hk]
    · rw [Bool.not_eq_true] at hk
      simp [List.lookup, hk, ih]

theorem lookup_mem_value {K V : Type} [BEq K]
    (l : List (K × V)) (k : K) (v : V) (h : l.lookup k = some v) :
    ∃ k', (k', v) ∈ l := by
  induction l with
  | nil => simp [List.lookup] at h
  | cons a rest ih =>
    by_cases hk : (k == a.1) = true
    · simp only [List.lookup, hk] at h
      have hv : a.2 = v := by simpa using h
      exact ⟨a.1, by rw [← hv]; exact List.mem_cons.mpr (Or.inl Prod.mk.eta.symm)⟩
    · rw [Bool.not_eq_true] at hk
      simp only [List.lookup, hk] at h
      obtain ⟨k', hk'⟩ := ih h
      exact ⟨k', List.mem_cons_of_mem _ hk'⟩

theorem cdFold_spec {K V : Type} [BEq K] [BEq V]
    (h0 : List (PyObj K V)) (pentries : List (K × Nat))
    (hwfp : ∀ e ∈ pentries, e.2 < h0.length) :
    ∀ (entries : List (K × Nat)) (h : List (PyObj K V)) (acc : List (K × Nat)),
    h0.length ≤ h.length → (∀ a, a < h0.length → h[a]? = h0[a]?) →
    (∀ e ∈ entries, e.2 < h0.length) →
    ∃ t newEntries,
      (entries.foldl (cdStep pentries) (h, acc)).1 = h ++ t ∧
      (entries.foldl (cdStep pentries) (h, acc)).2 = acc ++ newEntries ∧
      (∀ e ∈ newEntries, h.length ≤ e.2 ∧ e.2 < (h ++ t).length) ∧
      newEntries.map (fun e => (e.1, heapSet (h ++ t) e.2)) =
        computeDifference (entries.map (fun kv => (kv.1, heapSet h0 kv.2)))
                          (pentries.map (fun kv => (kv.1, heapSet h0 kv.2))) := by
  intro entries
  induction entries with
  | nil =>
    intro h acc _ _ _
    exact ⟨[], [], by simp, by simp, by simp, by simp [computeDifference]⟩
  | cons e rest ih =>
    intro h acc hlen hagree hwfc
    have hcur : heapSet h e.2 = heapSet h0 e.2 := by
      unfold heapSet
      rw [hagree e.2 (hwfc e (List.mem_cons_self _ _))]
    have hprevEq : (match pentries.lookup e.1 with
        | some pa => heapSet h pa
        | none => []) = dictGet (pentries.map (fun kv => (kv.1, heapSet h0 kv.2))) e.1 := by
      unfold dictGet
      rw [lookup_map_snd]
      cases hl : pentries.lookup e.1 with
      | none => rfl
      | some pa =>
        obtain ⟨k', hk'⟩ := lookup_mem_value pentries e.1 pa hl
        have hpa : pa < h0.length := hwfp (k', pa) hk'
        simp only [Option.map_some', Option.getD_some]
        unfold heapSet
        rw [hagree pa hpa]
    simp only [List.foldl_cons]
    rw [show cdStep pentries (h, acc) e =
        (let errors := setDiff (heapSet h e.2)
            (match pentries.lookup e.1 with | some pa => heapSet h pa | none => []);
         if errors.isEmpty then (h, acc)
         else (h ++ [PyObj.pset errors], acc ++ [(e.1, h.length)])) from rfl]
    simp only [List.map_cons]
    rw [computeDifference_cons]
    by_cases hemp : (setDiff (heapSet h0 e.2)
        (dictGet (pentries.map (fun kv => (kv.1, heapSet h0 kv.2))) e.1)).isEmpty
    · rw [if_pos hemp]
      have hemp2 : (setDiff (heapSet h e.2)
          (match pentries.lookup e.1 with | some pa => heapSet h pa | none => [])).isEmpty
          = true := by
        rw [hcur, hprevEq]
        exact hemp
      simp only [hemp2, if_true]
      exact ih h acc hlen hagree (fun x hx => hwfc x (List.mem_cons_of_mem _ hx))
    · rw [if_neg hemp]
      rw [Bool.not_eq_true] at hemp
      have hemp2 : (setDiff (heapSet h e.2)
          (match pentries.lookup e.1 with | some pa => heapSet h pa | none => [])).isEmpty
          = false := by
        rw [hcur, hprevEq]
        exact hemp
      simp only [hemp2, Bool.false_eq_true, if_false]
      set errs := setDiff (heapSet h e.2)
        (match pentries.lookup e.1 with | some pa => heapSet h pa | none => []) with herrs
      have herrsEq : errs = setDiff (heapSet h0 e.2)
          (dictGet (pentries.map (fun kv => (kv.1, heapSet h0 kv.2))) e.1) := by
        rw [herrs, hcur, hprevEq]
      have hlen' : h0.length ≤ (h ++ [PyObj.pset errs]).length := by
        rw [List.length_append]
        omega
      have hagree' : ∀ a, a < h0.length → (h ++ [PyObj.pset errs])[a]? = h0[a]? := by
        intro a ha
        rw [getElem?_append_lt _ _ _ (by omega), hagree a ha]
      obtain ⟨t', newE', h1, h2, h3, h4⟩ :=
        ih (h ++ [PyObj.pset errs]) (acc ++ [(e.1, h.length)]) hlen' hagree'
          (fun x hx => hwfc x (List.mem_cons_of_mem _ hx))
      refine ⟨[PyObj.pset errs] ++ t', (e.1, h.length) :: newE', ?_, ?_, ?_, ?_⟩
      · rw [h1, List.append_assoc]
      · rw [h2, List.append_assoc]
        rfl
      · intro x hx
        rcases List.mem_cons.mp hx with heq | hmem
        · rw [heq]
          constructor
          · exact Nat.le_refl _
          · simp only [List.length_append, List.length_cons]
            omega
        · have := h3 x hmem
          simp only [List.length_append, List.length_cons] at *
          omega
      · simp only [List.map_cons]
        have hfirst : heapSet (h ++ ([PyObj.pset errs] ++ t')) h.length = errs := by
          rw [← List.append_assoc]
          have hlt : h.length < (h ++ [PyObj.pset errs]).length := by
            simp
          rw [heapSet_append_lt _ _ _ hlt]
          unfold heapSet
          rw [List.getElem?_concat_length]
        rw [hfirst]
        have htail : newE'.map (fun x => (x.1, heapSet (h ++ ([PyObj.pset errs] ++ t')) x.2)) =
            newE'.map (fun x => (x.1, heapSet ((h ++ [PyObj.pset errs]) ++ t') x.2)) := by
          rw [← List.append_assoc]
        rw [htail, h4, herrsEq]

/-- C10: `computeDifference` never mutates its arguments.  On the heap
embedding: every heap cell that existed before the call holds the same object
afterwards (so both input dicts and every set they reference are unchanged),
the result dict is freshly allocated, every set it references is freshly
allocated, and dereferencing the result yields exactly the pure keywise
difference of the dereferenced inputs. -/
theorem computeDifferenceH_frame {K V : Type} [BEq K] [BEq V]
    (h : List (PyObj K V)) (cur prev : Nat)
    (hwfc : ∀ e ∈ heapDict h cur, e.2 < h.length)
    (hwfp : ∀ e ∈ heapDict h prev, e.2 < h.length) :
    (∀ a, a < h.length → (computeDifferenceH h cur prev).1[a]? = h[a]?)
    ∧ h.length ≤ (computeDifferenceH h cur prev).2
    ∧ (∀ e ∈ heapDict (computeDifferenceH h cur prev).1 (computeDifferenceH h cur prev).2,
        h.length ≤ e.2)
    ∧ (heapDict (computeDifferenceH h cur prev).1 (computeDifferenceH h cur prev).2).map
        (fun e => (e.1, heapSet (computeDifferenceH h cur prev).1 e.2)) =
      computeDifference ((heapDict h cur).map (fun kv => (kv.1, heapSet h kv.2)))
                        ((heapDict h prev).map (fun kv => (kv.1, heapSet h kv.2))) := by
  obtain ⟨t, newE, h1, h2, h3, h4⟩ :=
    cdFold_spec h (heapDict h prev) hwfp (heapDict h cur) h [] (Nat.le_refl _)
      (fun _ _ => rfl) hwfc
  have hres1 : (computeDifferenceH h cur prev).1 = (h ++ t) ++ [PyObj.pdict newE] := by
    simp only [computeDifferenceH]
    rw [h1, h2]
    rfl
  have hres2 : (computeDifferenceH h cur prev).2 = (h ++ t).length := by
    simp only [computeDifferenceH]
    rw [h1]
  have hdict : heapDict (computeDifferenceH h cur prev).1 (computeDifferenceH h cur prev).2
      = newE := by
    rw [hres1, hres2]
    unfold heapDict
    rw [List.getElem?_concat_length]
  refine ⟨?_, ?_, ?_, ?_⟩
  · intro a ha
    rw [hres1, getElem?_append_lt _ _ _ (by simp; omega),
      getElem?_append_lt _ _ _ ha]
  · rw [hres2, List.length_append]
    omega
  · intro e he
    rw [hdict] at he
    exact (h3 e he).1
  · rw [hdict, ← h4]
    apply List.map_congr_left
    intro e he
    rw [hres1, heapSet_append_lt _ _ _ (h3 e he).2]

/-- Witness for C10 on a concrete heap: `current = {'k': {1, 2}}` at address 2,
`previous = {'k': {2}}` at address 3, with the two sets at addresses 0 and 1. -/
theorem computeDifferenceH_frame_witness :
    ((∀ e ∈ heapDict exHeap 2, e.2 < exHeap.length)
      ∧ (∀ e ∈ heapDict exHeap 3, e.2 < exHeap.length))
    ∧ ((∀ a, a < exHeap.length → (computeDifferenceH exHeap 2 3).1[a]? = exHeap[a]?)
    ∧ exHeap.length ≤ (computeDifferenceH exHeap 2 3).2
    ∧ (∀ e ∈ heapDict (computeDifferenceH exHeap 2 3).1 (computeDifferenceH exHeap 2 3).2,
        exHeap.length ≤ e.2)
    ∧ (heapDict (computeDifferenceH exHeap 2 3).1 (computeDifferenceH exHeap 2 3).2).map
        (fun e => (e.1, heapSet (computeDifferenceH exHeap 2 3).1 e.2)) =
      computeDifference ((heapDict exHeap 2).map (fun kv => (kv.1, heapSet exHeap kv.2)))
                        ((heapDict exHeap 3).map (fun kv => (kv.1, heapSet exHeap kv.2)))) :=
  ⟨⟨by decide, by decide⟩,
    computeDifferenceH_frame exHeap 2 3 (by decide) (by decide)⟩

/-! ### Claim C2: the step verdict versus the tool's exit code -/

theorem processLogs_worse {K V : Type} [BEq K] [BEq V]
    (ce : String → List (K × List V)) (fe : List (K × List V) → List String)
    (lc old new : String) :
    (processLogs ce fe lc old new).2 = !(computeDifference (ce new) (ce old)).isEmpty := by
  simp only [processLogs]

/-- C2 counterexample: on a run with an empty new-only map (here: both texts
empty) but a nonzero tool exit code, the step result is `FAILURE`, not the
`Pass` the claim promises. -/
theorem evaluateCommand_exit_code_counterexample :
    (CheckCodesByTwistedChecker.processLogs "" "").2 = false
    ∧ evaluateCommand (CheckCodesByTwistedChecker.processLogs "" "").2 2 =
        StepResult.FAILURE := by
  constructor
  · rfl
  · rfl

/-- C2 (amended): the step's terminal result is `FAILURE` iff the new-only map
is non-empty or the wrapped tool's exit code is nonzero, and `SUCCESS` iff the
new-only map is empty and the exit code is zero: a non-empty diff overrides a
clean exit, but an empty diff does not override a nonzero exit — that case is
delegated to the inherited `ShellCommand` judgment. -/
theorem evaluateCommand_overrides {K V : Type} [BEq K] [BEq V]
    (ce : String → List (K × List V)) (fe : List (K × List V) → List String)
    (lc old new : String) (rc : Int) :
    (evaluateCommand (processLogs ce fe lc old new).2 rc = StepResult.FAILURE
      ↔ (computeDifference (ce new) (ce old) ≠ [] ∨ rc ≠ 0))
    ∧ (evaluateCommand (processLogs ce fe lc old new).2 rc = StepResult.SUCCESS
      ↔ (computeDifference (ce new) (ce old) = [] ∧ rc = 0)) := by
  rw [processLogs_worse]
  unfold evaluateCommand shellCommandEvaluate
  by_cases h : (computeDifference (ce new) (ce old)).isEmpty
  · rw [List.isEmpty_iff] at h
    by_cases hrc : rc = 0 <;>
      simp [List.isEmpty_iff, h, hrc]
  · rw [List.isEmpty_iff] at h
    simp [List.isEmpty_iff, h]

/-- Witness for C2 (amended), applying it with the twistedchecker adapter on
empty texts and exit code 3. -/
theorem evaluateCommand_overrides_witness :
    evaluateCommand (processLogs CheckCodesByTwistedChecker.computeErrors
      CheckCodesByTwistedChecker.formatErrors "twistedchecker" "" "").2 3 =
      StepResult.FAILURE :=
  (evaluateCommand_overrides CheckCodesByTwistedChecker.computeErrors
    CheckCodesByTwistedChecker.formatErrors "twistedchecker" "" "" 3).1.mpr
    (Or.inr (by decide))

/-! ### Claim C3: which artifacts each processLogs publishes -/

theorem string_ne_of_data_length_ne (a b : String)
    (h : a.data.length ≠ b.data.length) : a ≠ b := by
  intro heq
  exact h (congrArg (fun s => s.data.length) heq)

theorem groupLogName_ne_newLogName (tl : String) :
    ("twistedchecker " ++ tl ++ " errors") ≠ "new twistedchecker errors" := by
  intro h
  have h2 := congrArg String.data h
  simp only [String.data_append] at h2
  simp only [show ("twistedchecker ".data) = 't' :: "wistedchecker ".data from rfl,
    show ("new twistedchecker errors".data) = 'n' :: "ew twistedchecker errors".data from rfl,
    List.cons_append, List.cons.injEq] at h2
  exact absurd h2.1 (by decide)

theorem groupLogName_ne_plainName (tl : String) :
    ("twistedchecker " ++ tl ++ " errors") ≠ "twistedchecker errors" := by
  apply string_ne_of_data_length_ne
  simp only [String.data_append, List.length_append, List.length_cons, List.length_nil]
  omega

theorem newLogName_ne_plainName (lc : String) :
    ("new " ++ lc ++ " errors") ≠ (lc ++ " errors") := by
  apply string_ne_of_data_length_ne
  simp only [String.data_append, List.length_append, List.length_cons, List.length_nil]
  omega

/-- C3 counterexample: a twistedchecker run that computes findings (and even
fails) publishes no artifact named `'twistedchecker errors'` — the override
replaces it with per-package artifacts — so the next build's baseline lookup
by that exact name cannot find it. -/
theorem processLogs_twistedchecker_counterexample :
    CheckCodesByTwistedChecker.computeErrors
        "************* Module twisted.python\nW9002:  1,0: Missing a reference" ≠ []
    ∧ "twistedchecker errors" ∉
      (CheckCodesByTwistedChecker.processLogs ""
        "************* Module twisted.python\nW9002:  1,0: Missing a reference").1.map
        Prod.fst := by
  constructor
  · decide
  · decide

/-- C3 (amended): the base `LintStep.processLogs` always publishes the
`'<tool> errors'` artifact once the current findings are computed and
publishes `'new <tool> errors'` exactly when the new-only map is non-empty;
the `CheckCodesByTwistedChecker` override instead publishes only per-top-level
`'twistedchecker <toplevel> errors'` artifacts — never one named
`'twistedchecker errors'` — plus `'new twistedchecker errors'` exactly when
the new-only map is non-empty. -/
theorem processLogs_artifacts {K V : Type} [BEq K] [BEq V]
    (ce : String → List (K × List V)) (fe : List (K × List V) → List String)
    (lc old new : String) :
    ((lc ++ " errors") ∈ (processLogs ce fe lc old new).1.map Prod.fst)
    ∧ (("new " ++ lc ++ " errors") ∈ (processLogs ce fe lc old new).1.map Prod.fst
        ↔ computeDifference (ce new) (ce old) ≠ [])
    ∧ (∀ oldT newT, "twistedchecker errors" ∉
        (CheckCodesByTwistedChecker.processLogs oldT newT).1.map Prod.fst)
    ∧ (∀ oldT newT, "new twistedchecker errors" ∈
          (CheckCodesByTwistedChecker.processLogs oldT newT).1.map Prod.fst
        ↔ computeDifference (CheckCodesByTwistedChecker.computeErrors newT)
            (CheckCodesByTwistedChecker.computeErrors oldT) ≠ []) := by
  refine ⟨?_, ?_, ?_, ?_⟩
  · simp only [processLogs]
    by_cases h : (computeDifference (ce new) (ce old)).isEmpty <;> simp [h]
  · simp only [processLogs]
    by_cases h : (computeDifference (ce new) (ce old)).isEmpty
    · rw [if_pos h]
      rw [List.isEmpty_iff] at h
      simp [h, newLogName_ne_plainName lc]
    · have hne : computeDifference (ce new) (ce old) ≠ [] :=
        fun hh => h (by rw [hh]; rfl)
      rw [if_neg h]
      constructor
      · intro _
        exact hne
      · intro _
        rw [List.map_append]
        apply List.mem_append_right
        simp
  · intro oldT newT
    simp only [CheckCodesByTwistedChecker.processLogs]
    by_cases h : (computeDifference (CheckCodesByTwistedChecker.computeErrors newT)
        (CheckCodesByTwistedChecker.computeErrors oldT)).isEmpty
    · rw [if_pos h]
      intro hmem
      rw [List.map_map] at hmem
      rcases List.mem_map.mp hmem with ⟨g, _, hg⟩
      exact groupLogName_ne_plainName g.1 hg
    · rw [if_neg h]
      intro hmem
      rw [List.map_append] at hmem
      rcases List.mem_append.mp hmem with hl | hr
      · rw [List.map_map] at hl
        rcases List.mem_map.mp hl with ⟨g, _, hg⟩
        exact groupLogName_ne_plainName g.1 hg
      · simp only [List.map_cons, List.map_nil, List.mem_singleton] at hr
        exact absurd hr (by decide)
  · intro oldT newT
    simp only [CheckCodesByTwistedChecker.processLogs]
    by_cases h : (computeDifference (CheckCodesByTwistedChecker.computeErrors newT)
        (CheckCodesByTwistedChecker.computeErrors oldT)).isEmpty
    · rw [if_pos h]
      rw [List.isEmpty_iff] at h
      constructor
      · intro hmem
        rw [List.map_map] at hmem
        rcases List.mem_map.mp hmem with ⟨g, _, hg⟩
        exact absurd hg (groupLogName_ne_newLogName g.1)
      · intro hne
        exact absurd h hne
    · have hne : computeDifference (CheckCodesByTwistedChecker.computeErrors newT)
          (CheckCodesByTwistedChecker.computeErrors oldT) ≠ [] :=
        fun hh => h (by rw [hh]; rfl)
      rw [if_neg h]
      constructor
      · intro _
        exact hne
      · intro _
        rw [List.map_append]
        apply List.mem_append_right
        simp

/-- Witness for C3 (amended), applying it with the pydoctor-style generic step
on empty texts. -/
theorem processLogs_artifacts_witness :
    ("pydoctor errors") ∈
      (processLogs (fun (_ : String) => ([] : List (String × List String)))
        (fun _ => []) "pydoctor" "" "").1.map Prod.fst :=
  (processLogs_artifacts (fun (_ : String) => ([] : List (String × List String)))
    (fun _ => []) "pydoctor" "" "").1

/-! ### Claims C4 and C5: the baseline locator -/

theorem findSome?_congr_on {α β : Type} (f g : α → Option β) :
    ∀ l : List α, (∀ i ∈ l, f i = g i) → l.findSome? f = l.findSome? g := by
  intro l
  induction l with
  | nil => intro _; rfl
  | cons a rest ih =>
    intro h
    simp only [List.findSome?]
    rw [h a (List.mem_cons_self _ _), ih (fun i hi => h i (List.mem_cons_of_mem _ hi))]

theorem findSome?_range'_some {β : Type} (f : Nat → Option β) (b : β) :
    ∀ n s, ((List.range' s n).findSome? f = some b ↔
      ∃ i, s ≤ i ∧ i < s + n ∧ f i = some b ∧ ∀ j, s ≤ j → j < i → f j = none) := by
  intro n
  induction n with
  | zero =>
    intro s
    simp only [List.range', List.findSome?]
    constructor
    · intro h
      exact absurd h (by simp)
    · rintro ⟨i, h1, h2, _, _⟩
      omega
  | succ n ih =>
    intro s
    simp only [List.range', List.findSome?]
    cases hfs : f s with
    | some v =>
      constructor
      · intro h
        have hv : v = b := by simpa using h
        exact ⟨s, Nat.le_refl _, by omega, hv ▸ hfs, fun j h1 h2 => absurd h1 (by omega)⟩
      · rintro ⟨i, h1, h2, h3, h4⟩
        by_cases hi : i = s
        · rw [hi] at h3
          rw [hfs] at h3
          simpa using h3
        · have := h4 s (Nat.le_refl _) (by omega)
          rw [hfs] at this
          exact absurd this (by simp)
    | none =>
      rw [ih (s + 1)]
      constructor
      · rintro ⟨i, h1, h2, h3, h4⟩
        refine ⟨i, by omega, by omega, h3, ?_⟩
        intro j hj1 hj2
        by_cases hj : j = s
        · rw [hj]; exact hfs
        · exact h4 j (by omega) hj2
      · rintro ⟨i, h1, h2, h3, h4⟩
        have hi : i ≠ s := by
          intro hc
          rw [hc, hfs] at h3
          exact absurd h3 (by simp)
        exact ⟨i, by omega, by omega, h3, fun j hj1 hj2 => h4 j (by omega) hj2⟩

theorem findSome?_range'_none {β : Type} (f : Nat → Option β) :
    ∀ n s, ((List.range' s n).findSome? f = none ↔
      ∀ i, s ≤ i → i < s + n → f i = none) := by
  intro n
  induction n with
  | zero =>
    intro s
    simp only [List.range', List.findSome?]
    constructor
    · intro _ i h1 h2
      omega
    · intro _
      trivial
  | succ n ih =>
    intro s
    simp only [List.range', List.findSome?]
    cases hfs : f s with
    | some v =>
      constructor
      · intro h
        exact absurd h (by simp)
      · intro h
        have := h s (Nat.le_refl _) (by omega)
        rw [hfs] at this
        exact absurd this (by simp)
    | none =>
      rw [ih (s + 1)]
      constructor
      · intro h i h1 h2
        by_cases hi : i = s
        · rw [hi]; exact hfs
        · exact h i (by omega) (by omega)
      · intro h i h1 h2
        exact h i (by omega) (by omega)

theorem buildCandidate_eq_some (builder : Int → Option BuildStatus) (number : Int)
    (i : Nat) (b : BuildStatus) :
    buildCandidate builder number i = some b ↔
      builder (number - (i : Int)) = some b ∧ b.branch = "" := by
  unfold buildCandidate
  cases hb : builder (number - (i : Int)) with
  | none => simp
  | some b2 =>
    by_cases hbr : b2.branch = ""
    · simp only [hbr, if_pos rfl]
      constructor
      · intro h
        have : b2 = b := by simpa using h
        exact ⟨this ▸ rfl, this ▸ hbr⟩
      · rintro ⟨h1, _⟩
        simpa using h1
    · simp only [if_neg hbr]
      constructor
      · intro h
        exact absurd h (by simp)
      · rintro ⟨h1, h2⟩
        have : b2 = b := by simpa using h1
        exact absurd (this ▸ h2) hbr

theorem buildCandidate_eq_none (builder : Int → Option BuildStatus) (number : Int)
    (i : Nat) :
    buildCandidate builder number i = none ↔
      ∀ b, builder (number - (i : Int)) = some b → b.branch ≠ "" := by
  unfold buildCandidate
  cases hb : builder (number - (i : Int)) with
  | none => simp
  | some b2 =>
    by_cases hbr : b2.branch = ""
    · simp [hbr]
    · simp [hbr]

/-- C4: the baseline locator looks only at builds `number-1` down to
`number-10` (changing the builder's history anywhere else never changes the
result); it returns `some b` exactly when some window position `i ∈ [1,10]`
holds an existing build `b` with empty branch property while every closer
position holds either no build or a build on a non-empty branch; and it
returns `none` exactly when the build is the very first (`number = 0`) or
every window position fails that test — in particular it never scans an 11th
build back. -/
theorem getLastBuild_spec (builder builder2 : Int → Option BuildStatus) (number : Int) :
    ((∀ m : Int, number - 10 ≤ m → m ≤ number - 1 → builder m = builder2 m) →
      _getLastBuild builder number = _getLastBuild builder2 number)
    ∧ (∀ b, _getLastBuild builder number = some b ↔
        (number ≠ 0 ∧ ∃ i : Nat, 1 ≤ i ∧ i ≤ 10 ∧
          builder (number - (i : Int)) = some b ∧ b.branch = "" ∧
          ∀ j : Nat, 1 ≤ j → j < i →
            ∀ b2, builder (number - (j : Int)) = some b2 → b2.branch ≠ ""))
    ∧ (_getLastBuild builder number = none ↔
        (number = 0 ∨ ∀ i : Nat, 1 ≤ i → i ≤ 10 →
          ∀ b, builder (number - (i : Int)) = some b → b.branch ≠ "")) := by
  refine ⟨?_, ?_, ?_⟩
  · intro hagree
    unfold _getLastBuild
    by_cases h0 : number = 0
    · simp [h0]
    · rw [if_neg h0, if_neg h0]
      apply findSome?_congr_on
      intro i hi
      rw [List.mem_range'_1] at hi
      unfold buildCandidate
      rw [hagree (number - (i : Int)) (by omega) (by omega)]
  · intro b
    unfold _getLastBuild
    by_cases h0 : number = 0
    · rw [if_pos h0]
      constructor
      · intro h
        exact absurd h (by simp)
      · rintro ⟨hne, _⟩
        exact absurd h0 hne
    · rw [if_neg h0]
      rw [findSome?_range'_some]
      constructor
      · rintro ⟨i, h1, h2, h3, h4⟩
        rcases (buildCandidate_eq_some builder number i b).mp h3 with ⟨hb, hbr⟩
        refine ⟨h0, i, h1, by omega, hb, hbr, ?_⟩
        intro j hj1 hj2
        exact (buildCandidate_eq_none builder number j).mp (h4 j hj1 hj2)
      · rintro ⟨_, i, h1, h2, hb, hbr, hprev⟩
        refine ⟨i, h1, by omega, (buildCandidate_eq_some builder number i b).mpr ⟨hb, hbr⟩, ?_⟩
        intro j hj1 hj2
        exact (buildCandidate_eq_none builder number j).mpr (hprev j hj1 hj2)
  · unfold _getLastBuild
    by_cases h0 : number = 0
    · simp [h0]
    · rw [if_neg h0]
      rw [findSome?_range'_none]
      constructor
      · intro h
        right
        intro i h1 h2
        exact (buildCandidate_eq_none builder number i).mp (h i h1 (by omega))
      · intro h
        rcases h with h | h
        · exact absurd h h0
        · intro i h1 h2
          exact (buildCandidate_eq_none builder number i).mpr (h i h1 (by omega))

/-- Witness for C4: with an empty history the locator returns `none`; the
frame part is applied to two builders that agree on the window. -/
theorem getLastBuild_spec_witness :
    ((∀ m : Int, (7 : Int) - 10 ≤ m → m ≤ (7 : Int) - 1 →
        (fun _ : Int => (none : Option BuildStatus)) m =
        (fun _ : Int => (none : Option BuildStatus)) m))
    ∧ _getLastBuild (fun _ => none) 7 = none :=
  ⟨fun _ _ _ => rfl,
    (getLastBuild_spec (fun _ => none) (fun _ => none) 7).2.2.mpr
      (Or.inr (fun _ _ _ b hb => by simp at hb))⟩

/-- C5: whenever no qualifying baseline exists — the current build is number
0, the whole ten-build window yields nothing, or the located build has no log
named `'<tool> errors'` — `getPreviousLog` returns the empty string instead of
raising. -/
theorem getPreviousLog_spec (builder : Int → Option BuildStatus) (number : Int)
    (lintChecker : String) :
    (number = 0 → getPreviousLog builder number lintChecker = "")
    ∧ (_getLastBuild builder number = none →
        getPreviousLog builder number lintChecker = "")
    ∧ (∀ b, _getLastBuild builder number = some b →
        (∀ l ∈ b.logs, l.1 ≠ lintChecker ++ " errors") →
        getPreviousLog builder number lintChecker = "") := by
  refine ⟨?_, ?_, ?_⟩
  · intro h0
    have hnone : _getLastBuild builder number = none := by
      unfold _getLastBuild
      rw [if_pos h0]
    simp only [getPreviousLog]
    rw [hnone]
  · intro hnone
    simp only [getPreviousLog]
    rw [hnone]
  · intro b hb hlogs
    simp only [getPreviousLog]
    rw [hb]
    have hfind : b.logs.find? (fun l => l.1 == lintChecker ++ " errors") = none := by
      rw [List.find?_eq_none]
      intro l hl
      simp only [beq_iff_eq]
      exact hlogs l hl
    change (match List.find? (fun l => l.1 == lintChecker ++ " errors") b.logs with
      | some l => l.2
      | none => "") = ""
    rw [hfind]

/-- Witness for C5: a located build whose only log has a different name still
produces the empty baseline. -/
theorem getPreviousLog_spec_witness :
    _getLastBuild (fun n => if n = 4 then some ⟨"", [("stdio", "blah")]⟩ else none) 5 =
      some ⟨"", [("stdio", "blah")]⟩
    ∧ getPreviousLog (fun n => if n = 4 then some ⟨"", [("stdio", "blah")]⟩ else none) 5
        "twistedchecker" = "" := by
  have hb : _getLastBuild (fun n : Int => if n = 4 then some
      (⟨"", [("stdio", "blah")]⟩ : BuildStatus) else none) 5 =
      some ⟨"", [("stdio", "blah")]⟩ := by decide
  refine ⟨hb, ?_⟩
  apply (getPreviousLog_spec _ 5 "twistedchecker").2.2 _ hb
  intro l hl
  have : l = ("stdio", "blah") := by simpa using hl
  rw [this]
  decide

/-! ### Lexicographic order lemmas for the Python string comparison -/

theorem lexLtCh_both_false : ∀ a b : List Char,
    (lexLtCh a b = false ∧ lexLtCh b a = false) ↔ a = b := by
  intro a
  induction a with
  | nil =>
    intro b
    cases b with
    | nil => simp [lexLtCh]
    | cons c bs => simp [lexLtCh]
  | cons a1 as ih =>
    intro b
    cases b with
    | nil => simp [lexLtCh]
    | cons b1 bs =>
      by_cases h1 : a1.toNat < b1.toNat
      · have hne : a1 ≠ b1 := by
          intro hc
          rw [hc] at h1
          omega
        simp [lexLtCh, h1, hne]
      · by_cases h2 : a1 = b1
        · subst h2
          simp only [lexLtCh, if_neg h1, eq_self_iff_true, if_true]
          rw [ih bs]
          constructor
          · intro h
            rw [h]
          · intro h
            exact (List.cons.injEq _ _ _ _ ▸ h).2
        · have hne : a1.toNat ≠ b1.toNat := by
            intro hc
            exact h2 (Char.eq_of_val_eq (UInt32.toNat.inj hc))
          have h3 : b1.toNat < a1.toNat := by omega
          have hne2 : b1 ≠ a1 := fun hc => h2 hc.symm
          simp [lexLtCh, h1, h2, h3, hne2]

theorem lexLtCh_irrefl (a : List Char) : lexLtCh a a = false :=
  ((lexLtCh_both_false a a).mpr rfl).1

theorem lexLtCh_trans : ∀ a b c : List Char,
    lexLtCh a b = true → lexLtCh b c = true → lexLtCh a c = true := by
  intro a
  induction a with
  | nil =>
    intro b c hab hbc
    cases b with
    | nil => exact absurd hab (by simp [lexLtCh])
    | cons b1 bs =>
      cases c with
      | nil => exact absurd hbc (by simp [lexLtCh])
      | cons c1 cs => simp [lexLtCh]
  | cons a1 as ih =>
    intro b c hab hbc
    cases b with
    | nil => exact absurd hab (by simp [lexLtCh])
    | cons b1 bs =>
      cases c with
      | nil => exact absurd hbc (by simp [lexLtCh])
      | cons c1 cs =>
        simp only [lexLtCh] at hab hbc ⊢
        by_cases h1 : a1.toNat < b1.toNat
        · by_cases h2 : b1.toNat < c1.toNat
          · rw [if_pos (by omega : a1.toNat < c1.toNat)]
          · rw [if_neg h2] at hbc
            by_cases h3 : b1 = c1
            · rw [← h3]
              rw [if_pos h1]
            · rw [if_neg h3] at hbc
              exact absurd hbc (by simp)
        · rw [if_neg h1] at hab
          by_cases h2 : a1 = b1
          · rw [if_pos h2] at hab
            by_cases h3 : b1.toNat < c1.toNat
            · rw [if_pos (h2 ▸ h3)]
            · rw [if_neg h3] at hbc
              by_cases h4 : b1 = c1
              · have h5 : ¬ a1.toNat < c1.toNat := by rw [← h4]; exact h1
                rw [if_pos h4] at hbc
                rw [if_neg h5, if_pos (h2.trans h4)]
                exact ih bs cs hab hbc
              · rw [if_neg h4] at hbc
                exact absurd hbc (by simp)
          · rw [if_neg h2] at hab
            exact absurd hab (by simp)

theorem lexLtCh_asymm (a b : List Char) (h : lexLtCh a b = true) :
    lexLtCh b a = false := by
  by_cases h2 : lexLtCh b a = true
  · have := lexLtCh_trans a b a h h2
    rw [lexLtCh_irrefl] at this
    exact absurd this (by simp)
  · exact Bool.not_eq_true _ ▸ h2

theorem lexLeCh_total (a b : List Char) :
    lexLeCh a b = true ∨ lexLeCh b a = true := by
  unfold lexLeCh
  cases h : lexLtCh b a with
  | false => left; rfl
  | true => right; rw [lexLtCh_asymm b a h]; rfl

theorem lexLeCh_trans (a b c : List Char) (hab : lexLeCh a b = true)
    (hbc : lexLeCh b c = true) : lexLeCh a c = true := by
  unfold lexLeCh at *
  rw [Bool.not_eq_eq_eq_not] at *
  simp only [Bool.not_true] at *
  by_cases h1 : lexLtCh b c = true
  · have h2 : lexLtCh c a = true → False := by
      intro hca
      have := lexLtCh_trans b c a h1 hca
      rw [hab] at this
      exact absurd this (by simp)
    cases h : lexLtCh c a with
    | false => rfl
    | true => exact absurd h (fun hh => h2 hh)
  · have hbceq : b = c :=
      (lexLtCh_both_false b c).mp ⟨Bool.not_eq_true _ ▸ h1, hbc⟩
    rw [← hbceq]
    exact hab

theorem lexLeCh_antisymm (a b : List Char) (hab : lexLeCh a b = true)
    (hba : lexLeCh b a = true) : a = b := by
  unfold lexLeCh at *
  rw [Bool.not_eq_eq_eq_not] at *
  simp only [Bool.not_true] at *
  exact (lexLtCh_both_false a b).mp ⟨hba, hab⟩

theorem strLt_irrefl (a : String) : strLt a a = false := by
  unfold strLt
  exact lexLtCh_irrefl a.data

theorem strLt_both_false_iff (a b : String) :
    (strLt a b = false ∧ strLt b a = false) ↔ a = b := by
  unfold strLt
  rw [lexLtCh_both_false]
  constructor
  · exact String.ext
  · intro h
    rw [h]

theorem strLe_total (a b : String) : strLe a b = true ∨ strLe b a = true := by
  unfold strLe strLt
  rcases lexLeCh_total a.data b.data with h | h
  · left; exact h
  · right; exact h

theorem strLe_trans (a b c : String) (hab : strLe a b = true)
    (hbc : strLe b c = true) : strLe a c = true :=
  lexLeCh_trans a.data b.data c.data hab hbc

/-! ### The embedded Python sort: permutation and sortedness -/

theorem pyInsert_perm {α : Type} (le : α → α → Bool) (x : α) :
    ∀ l : List α, (pySorted.pyInsert le x l).Perm (x :: l) := by
  intro l
  induction l with
  | nil => simp [pySorted.pyInsert]
  | cons y ys ih =>
    unfold pySorted.pyInsert
    by_cases h : le x y
    · rw [if_pos h]
    · rw [if_neg h]
      exact List.Perm.trans (List.Perm.cons y ih) (List.Perm.swap x y ys)

theorem pySorted_perm {α : Type} (le : α → α → Bool) :
    ∀ l : List α, (pySorted le l).Perm l := by
  intro l
  induction l with
  | nil => simp [pySorted]
  | cons x rest ih =>
    unfold pySorted
    exact List.Perm.trans (pyInsert_perm le x (pySorted le rest)) (List.Perm.cons x ih)

theorem pyInsert_pairwise {α : Type} (le : α → α → Bool)
    (htot : ∀ a b, le a b = true ∨ le b a = true)
    (htrans : ∀ a b c, le a b = true → le b c = true → le a c = true)
    (x : α) : ∀ l : List α, List.Pairwise (fun a b => le a b = true) l →
      List.Pairwise (fun a b => le a b = true) (pySorted.pyInsert le x l) := by
  intro l
  induction l with
  | nil =>
    intro _
    simp [pySorted.pyInsert]
  | cons y ys ih =>
    intro hp
    rcases List.pairwise_cons.mp hp with ⟨hy, hys⟩
    unfold pySorted.pyInsert
    by_cases h : le x y
    · rw [if_pos h]
      refine List.pairwise_cons.mpr ⟨?_, hp⟩
      intro z hz
      rcases List.mem_cons.mp hz with hz | hz
      · rw [hz]; exact h
      · exact htrans x y z h (hy z hz)
    · rw [if_neg h]
      refine List.pairwise_cons.mpr ⟨?_, ih hys⟩
      intro z hz
      have hz2 := (pyInsert_perm le x ys).mem_iff.mp hz
      rcases List.mem_cons.mp hz2 with hz2 | hz2
      · rw [hz2]
        rcases htot x y with ht | ht
        · exact absurd ht h
        · exact ht
      · exact hy z hz2

theorem pySorted_pairwise {α : Type} (le : α → α → Bool)
    (htot : ∀ a b, le a b = true ∨ le b a = true)
    (htrans : ∀ a b c, le a b = true → le b c = true → le a c = true) :
    ∀ l : List α, List.Pairwise (fun a b => le a b = true) (pySorted le l) := by
  intro l
  induction l with
  | nil => simp [pySorted]
  | cons x rest ih =>
    unfold pySorted
    exact pyInsert_pairwise le htot htrans x (pySorted le rest) ih

/-! ### Split lemmas for the pydoctor field extraction -/

theorem splitFirstAt_append_sep (sep : Char) (a b : List Char) (ha : sep ∉ a) :
    splitFirstAt sep (a ++ sep :: b) = some (a, b) := by
  induction a with
  | nil => simp [splitFirstAt]
  | cons c as ih =>
    simp only [List.mem_cons, not_or] at ha
    simp only [List.cons_append, splitFirstAt, List.append_eq]
    rw [if_neg (fun h => ha.1 h.symm), ih ha.2]
    rfl

theorem splitAllCh_ne_nil (sep : Char) : ∀ l : List Char, splitAllCh sep l ≠ [] := by
  intro l
  cases l with
  | nil => simp [splitAllCh]
  | cons c rest =>
    simp only [splitAllCh]
    by_cases h : c = sep
    · simp [h]
    · rw [if_neg h]
      cases splitAllCh sep rest <;> simp

theorem splitAllCh_append (sep : Char) (a b : List Char) :
    splitAllCh sep (a ++ sep :: b) = splitAllCh sep a ++ splitAllCh sep b := by
  induction a with
  | nil => simp [splitAllCh]
  | cons c as ih =>
    simp only [List.cons_append, splitAllCh, List.append_eq]
    by_cases h : c = sep
    · rw [if_pos h, if_pos h, ih]
      rfl
    · rw [if_neg h, if_neg h, ih]
      cases hsa : splitAllCh sep as with
      | nil => exact absurd hsa (splitAllCh_ne_nil sep as)
      | cons hd tl => simp

theorem splitAllCh_no_sep (sep : Char) : ∀ a : List Char, sep ∉ a →
    splitAllCh sep a = [a] := by
  intro a
  induction a with
  | nil => intro _; rfl
  | cons c as ih =>
    intro ha
    simp only [List.mem_cons, not_or] at ha
    simp only [splitAllCh]
    rw [if_neg (fun h => ha.1 h.symm), ih ha.2]

theorem splitColon2_pair (fqpn l1 : List Char) (h1 : ':' ∉ fqpn) (h2 : ':' ∉ l1) :
    splitColon2 (fqpn ++ ':' :: l1) = some (fqpn, l1) := by
  unfold splitColon2
  rw [splitAllCh_append, splitAllCh_no_sep _ fqpn h1, splitAllCh_no_sep _ l1 h2]
  rfl

theorem invalidRefValue_discards_lineno (fqpn l1 rest : List Char)
    (hf1 : ' ' ∉ fqpn) (hf2 : ':' ∉ fqpn) (hl1 : ' ' ∉ l1) (hl2 : ':' ∉ l1) :
    CheckDocumentation.invalidRefValue (fqpn ++ ':' :: (l1 ++ ' ' :: rest)) =
      some (fqpn ++ ':' :: ' ' :: rest) := by
  have hassoc : fqpn ++ ':' :: (l1 ++ ' ' :: rest) =
      (fqpn ++ ':' :: l1) ++ ' ' :: rest := by
    simp
  have hnospace : ' ' ∉ fqpn ++ ':' :: l1 := by
    simp only [List.mem_append, List.mem_cons, not_or]
    exact ⟨hf1, by decide, hl1⟩
  unfold CheckDocumentation.invalidRefValue
  rw [hassoc, splitFirstAt_append_sep ' ' _ _ hnospace]
  show (match splitColon2 (fqpn ++ ':' :: l1) with
    | none => none
    | some (fq, _lineno) => some (fq ++ ':' :: ' ' :: rest)) =
    some (fqpn ++ ':' :: ' ' :: rest)
  rw [splitColon2_pair fqpn l1 hf2 hl2]

/-! ### Claim C7: TwistedCheckerError construction never fails -/

/-- C7: constructing a `TwistedCheckerError` from any string is total: the raw
message is always preserved; when the finding-line pattern does not match, the
fields carry the sentinels `"UXXXX"` / `"9999"` / `"9"` / `"Unparseable"`; and
when it matches, the fields are the four captured groups. -/
theorem mkTwistedCheckerError_total (msg : String) :
    (mkTwistedCheckerError msg).msg = msg
    ∧ (tceMatch msg.data = none →
        mkTwistedCheckerError msg =
          { msg := msg, type := "UXXXX", line := "9999", indent := "9",
            text := "Unparseable" })
    ∧ (∀ t ln ind tx, tceMatch msg.data = some (t, ln, ind, tx) →
        mkTwistedCheckerError msg =
          { msg := msg, type := t, line := ln, indent := ind, text := tx }) := by
  refine ⟨?_, ?_, ?_⟩
  · unfold mkTwistedCheckerError
    cases tceMatch msg.data with
    | none => rfl
    | some g =>
      obtain ⟨t, ln, ind, tx⟩ := g
      rfl
  · intro h
    unfold mkTwistedCheckerError
    rw [h]
  · intro t ln ind tx h
    unfold mkTwistedCheckerError
    rw [h]

/-- Witness for C7: the malformed line `"W1234:abc"` (matched by the loop's
line-start test but not by the full pattern) yields the sentinel finding, and
a subsequent well-formed line still parses — the malformed line does not abort
the twistedchecker parse. -/
theorem mkTwistedCheckerError_total_witness :
    tceMatch "W1234:abc".data = none
    ∧ mkTwistedCheckerError "W1234:abc" =
        { msg := "W1234:abc", type := "UXXXX", line := "9999", indent := "9",
          text := "Unparseable" }
    ∧ CheckCodesByTwistedChecker.computeErrors
        "************* Module m\nW1234:abc\nC0301: 19,0: Line too long" =
      [("m", [mkTwistedCheckerError "W1234:abc",
              mkTwistedCheckerError "C0301: 19,0: Line too long"])] :=
  ⟨by decide, (mkTwistedCheckerError_total "W1234:abc").2.1 (by decide), by decide⟩

/-! ### Claim C8: finding equality versus display order -/

theorem tce_beq_iff (a b : TwistedCheckerError) :
    (a == b) = true ↔ (a.type = b.type ∧ a.text = b.text) := by
  show (a.type == b.type && a.text == b.text) = true ↔ _
  simp [Bool.and_eq_true, beq_iff_eq]

theorem lexLevel_false {x y : Bool} (s1 s2 : String)
    (hab : (strLt s1 s2 || (s1 == s2 && x)) = false)
    (hba : (strLt s2 s1 || (s2 == s1 && y)) = false) :
    s1 = s2 ∧ x = false ∧ y = false := by
  rcases Bool.or_eq_false_iff.mp hab with ⟨h1, h2⟩
  rcases Bool.or_eq_false_iff.mp hba with ⟨h3, h4⟩
  have heq : s1 = s2 := (strLt_both_false_iff s1 s2).mp ⟨h1, h3⟩
  subst heq
  refine ⟨rfl, ?_, ?_⟩
  · rcases Bool.and_eq_false_iff.mp h2 with h | h
    · rw [beq_self_eq_true] at h
      exact absurd h (by simp)
    · exact h
  · rcases Bool.and_eq_false_iff.mp h4 with h | h
    · rw [beq_self_eq_true] at h
      exact absurd h (by simp)
    · exact h

/-- C8: `TwistedCheckerError` equality looks only at the `(type, text)` pair —
two findings parsed from lines that differ only in line number and indent are
equal, so a finding that merely moved lines is never reported as new — while
the display comparison `__cmp__` distinguishes exactly the full
`(line, indent, type, text)` tuple; and the pydoctor adapter achieves the same
line-number insensitivity by discarding the line number from the stored value
of every `'invalid ref'` finding. -/
theorem finding_equality_spec :
    (∀ a b : TwistedCheckerError, (a == b) = true ↔ (a.type = b.type ∧ a.text = b.text))
    ∧ (∀ m1 m2 : String, ∀ t l1 i1 l2 i2 x : String,
        tceMatch m1.data = some (t, l1, i1, x) →
        tceMatch m2.data = some (t, l2, i2, x) →
        (mkTwistedCheckerError m1 == mkTwistedCheckerError m2) = true)
    ∧ (∀ a b : TwistedCheckerError,
        (tceLtb a b = false ∧ tceLtb b a = false) ↔
          (a.line = b.line ∧ a.indent = b.indent ∧ a.type = b.type ∧ a.text = b.text))
    ∧ (∀ fqpn l1 rest : List Char,
        (' ' ∉ fqpn) → (':' ∉ fqpn) → (' ' ∉ l1) → (':' ∉ l1) →
        CheckDocumentation.invalidRefValue (fqpn ++ ':' :: (l1 ++ ' ' :: rest)) =
          some (fqpn ++ ':' :: ' ' :: rest)) := by
  refine ⟨tce_beq_iff, ?_, ?_, ?_⟩
  · intro m1 m2 t l1 i1 l2 i2 x h1 h2
    have e1 : mkTwistedCheckerError m1 =
        { msg := m1, type := t, line := l1, indent := i1, text := x } := by
      unfold mkTwistedCheckerError
      rw [h1]
    have e2 : mkTwistedCheckerError m2 =
        { msg := m2, type := t, line := l2, indent := i2, text := x } := by
      unfold mkTwistedCheckerError
      rw [h2]
    rw [e1, e2, tce_beq_iff]
    exact ⟨rfl, rfl⟩
  · intro a b
    constructor
    · rintro ⟨hab, hba⟩
      unfold tceLtb at hab hba
      obtain ⟨hl, hab2, hba2⟩ := lexLevel_false a.line b.line hab hba
      obtain ⟨hi, hab3, hba3⟩ := lexLevel_false a.indent b.indent hab2 hba2
      obtain ⟨ht, hab4, hba4⟩ := lexLevel_false a.type b.type hab3 hba3
      exact ⟨hl, hi, ht, (strLt_both_false_iff _ _).mp ⟨hab4, hba4⟩⟩
    · rintro ⟨hl, hi, ht, hx⟩
      unfold tceLtb
      rw [hl, hi, ht, hx]
      simp [strLt_irrefl]
  · intro fqpn l1 rest hf1 hf2 hl1 hl2
    exact invalidRefValue_discards_lineno fqpn l1 rest hf1 hf2 hl1 hl2

/-- Witness for C8: the twistedchecker lines `'W9001: 12,0: foo'` and
`'W9001:213,4: foo'` differ only in line number and indent, and parse to
`==`-equal findings with different display tuples; the pydoctor lines
`'twisted.a:12 invalid ref to B'` and `'twisted.a:999 invalid ref to B'`
produce the same stored value. -/
theorem finding_equality_spec_witness :
    (tceMatch "W9001: 12,0: foo".data = some ("W9001", " 12", "0", " foo")
      ∧ tceMatch "W9001:213,4: foo".data = some ("W9001", "213", "4", " foo"))
    ∧ (mkTwistedCheckerError "W9001: 12,0: foo" ==
        mkTwistedCheckerError "W9001:213,4: foo") = true
    ∧ tceLtb (mkTwistedCheckerError "W9001: 12,0: foo")
        (mkTwistedCheckerError "W9001:213,4: foo") = true
    ∧ CheckDocumentation.invalidRefValue "twisted.a:12 invalid ref to B".data =
        some "twisted.a: invalid ref to B".data
    ∧ CheckDocumentation.invalidRefValue "twisted.a:999 invalid ref to B".data =
        some "twisted.a: invalid ref to B".data := by
  refine ⟨⟨by decide, by decide⟩, ?_, by decide, ?_, by decide⟩
  · exact finding_equality_spec.2.1 "W9001: 12,0: foo" "W9001:213,4: foo"
      "W9001" " 12" "0" "213" "4" " foo" (by decide) (by decide)
  · have heq : ("twisted.a:12 invalid ref to B".data) =
        "twisted.a".data ++ ':' :: ("12".data ++ ' ' :: "invalid ref to B".data) := by
      decide
    have hval : ("twisted.a: invalid ref to B".data) =
        "twisted.a".data ++ ':' :: ' ' :: "invalid ref to B".data := by
      decide
    rw [heq, hval]
    exact finding_equality_spec.2.2.2 "twisted.a".data "12".data "invalid ref to B".data
      (by decide) (by decide) (by decide) (by decide)

/-! ### Claim C9: formatter determinism and grouping -/

/-- C9 counterexample: the pydoctor `formatErrors` does not iterate group keys
in sorted order rendering each group in place — it sorts the flattened pool of
all findings, which interleaves groups (here `'a'` from the later group sorts
before `'z'` from the earlier one). -/
theorem pydoctor_format_counterexample :
    CheckDocumentation.formatErrors
        [("invalid ref", ["z".data]), ("unknown fields", ["a".data])] ≠
      specGroupedFormat
        [("invalid ref", ["z".data]), ("unknown fields", ["a".data])] := by
  decide

/-- C9 (amended): the module-grouped twistedchecker `formatErrors` does
iterate group keys in sorted order with each group's findings in their defined
sort order behind a reproduced `'************* Module <name>'` header (it
coincides with the formatter contract written from the spec); the pydoctor
`formatErrors` instead returns the globally sorted flat list of all findings —
still deterministic: its output is sorted and depends only on the multiset of
findings, not on grouping or order. -/
theorem formatErrors_spec :
    (∀ m : List (String × List TwistedCheckerError),
      CheckCodesByTwistedChecker.formatErrors m = specFormatTwistedchecker m)
    ∧ (∀ m1 m2 : List (String × List (List Char)),
        (m1.foldl (fun acc kv => acc ++ kv.2) []).Perm
          (m2.foldl (fun acc kv => acc ++ kv.2) []) →
        CheckDocumentation.formatErrors m1 = CheckDocumentation.formatErrors m2)
    ∧ (∀ m : List (String × List (List Char)),
        List.Pairwise (fun a b => lexLeCh a b = true)
          (CheckDocumentation.formatErrors m)) := by
  refine ⟨fun m => rfl, ?_, ?_⟩
  · intro m1 m2 hp
    unfold CheckDocumentation.formatErrors
    exact List.Perm.eq_of_sorted
      (fun a b _ _ hab hba => lexLeCh_antisymm a b hab hba)
      (pySorted_pairwise lexLeCh lexLeCh_total lexLeCh_trans _)
      (pySorted_pairwise lexLeCh lexLeCh_total lexLeCh_trans _)
      (((pySorted_perm _ _).trans hp).trans (pySorted_perm _ _).symm)
  · intro m
    unfold CheckDocumentation.formatErrors
    exact pySorted_pairwise lexLeCh lexLeCh_total lexLeCh_trans _

/-- Witness for C9 (amended): two maps with the same findings under different
grouping and order format identically. -/
theorem formatErrors_spec_witness :
    CheckDocumentation.formatErrors [("invalid ref", ["b".data, "a".data])] =
      CheckDocumentation.formatErrors [("x", ["a".data]), ("y", ["b".data])] :=
  formatErrors_spec.2.1 _ _ (by decide)

/-! ### Claim C6: line accounting of the two parsers -/

theorem mkTCE_msg (s : String) : (mkTwistedCheckerError s).msg = s := by
  unfold mkTwistedCheckerError
  cases tceMatch s.data with
  | none => rfl
  | some g =>
    obtain ⟨t, ln, ind, tx⟩ := g
    rfl

theorem contains_cons_eval {V : Type} [BEq V] (a b : V) (bs : List V) :
    (b :: bs).contains a = (a == b || bs.contains a) := by
  show List.elem a (b :: bs) = (a == b || List.elem a bs)
  simp only [List.elem]
  cases a == b <;> rfl

theorem contains_append_false {V : Type} [BEq V] (a : V) :
    ∀ l1 l2 : List V, l1.contains a = false → l2.contains a = false →
      (l1 ++ l2).contains a = false := by
  intro l1
  induction l1 with
  | nil =>
    intro l2 _ h2
    simpa using h2
  | cons b bs ih =>
    intro l2 h1 h2
    rw [contains_cons_eval] at h1
    rcases Bool.or_eq_false_iff.mp h1 with ⟨hb, hbs⟩
    rw [List.cons_append, contains_cons_eval, hb, ih l2 hbs h2]
    rfl

theorem setOfList_go {V : Type} [BEq V] :
    ∀ (l acc : List V), (∀ x ∈ l, acc.contains x = false) → allDistinctB l = true →
      l.foldl (fun acc x => if acc.contains x then acc else acc ++ [x]) acc = acc ++ l := by
  intro l
  induction l with
  | nil =>
    intro acc _ _
    simp
  | cons x rest ih =>
    intro acc hacc hdist
    simp only [allDistinctB, Bool.and_eq_true, List.all_eq_true] at hdist
    simp only [List.foldl_cons]
    rw [if_neg (by rw [hacc x (List.mem_cons_self _ _)]; simp)]
    rw [ih (acc ++ [x]) ?_ hdist.2]
    · simp
    · intro z hz
      have h1 : acc.contains z = false := hacc z (List.mem_cons_of_mem _ hz)
      have h2 : (z == x) = false := by
        have h3 := (hdist.1 z hz).2
        rw [Bool.not_eq_true'] at h3
        exact h3
      have h4 : ([x] : List V).contains z = false := by
        rw [contains_cons_eval, h2]
        rfl
      exact contains_append_false z acc [x] h1 h4

theorem setOfList_id {V : Type} [BEq V] (l : List V) (hdist : allDistinctB l = true) :
    setOfList l = l := by
  unfold setOfList
  rw [setOfList_go l [] (fun x _ => rfl) hdist]
  rfl

theorem not_mem_of_contains_eq_false {V : Type} [BEq V] [LawfulBEq V]
    (l : List V) (a : V) (h : l.contains a = false) : a ∉ l := by
  intro hmem
  have : l.contains a = true := List.elem_iff.mpr hmem
  rw [h] at this
  exact absurd this (by simp)

theorem dictSet_append {K V : Type} [BEq K] [LawfulBEq K]
    (d : List (K × V)) (k : K) (v : V) (h : k ∉ d.map Prod.fst) :
    dictSet d k v = d ++ [(k, v)] := by
  induction d with
  | nil => rfl
  | cons kv rest ih =>
    simp only [List.map_cons, List.mem_cons, not_or] at h
    simp only [dictSet]
    rw [if_neg (by simp only [beq_iff_eq]; exact h.1), ih h.2]
    rfl

namespace CheckCodesByTwistedChecker

theorem save_pieces (w : List (String × List TwistedCheckerError))
    (cm : Option String) (wcm : List (List Char))
    (hs : saveOk (w.map Prod.fst) cm wcm = true) :
    reconstructPieces (saveModule w cm wcm) =
      reconstructPieces w ++ blockPieces cm wcm := by
  cases cm with
  | none => simp [saveModule, blockPieces]
  | some m =>
    simp only [saveOk, Bool.and_eq_true] at hs
    obtain ⟨⟨hne, hnotin⟩, hdist⟩ := hs
    rw [Bool.not_eq_true'] at hne hnotin
    have hmne : m ≠ "" := by
      rw [beq_eq_false_iff_ne] at hne
      exact hne
    have hmnotin : m ∉ w.map Prod.fst :=
      not_mem_of_contains_eq_false _ m hnotin
    simp only [saveModule]
    rw [if_neg hmne, dictSet_append w m _ hmnotin]
    simp only [reconstructPieces, blockPieces, List.flatMap_append]
    congr 1
    simp only [List.flatMap_cons, List.flatMap_nil, List.append_nil]
    rw [setOfList_id _ hdist]
    congr 1
    rw [List.map_map]
    have hcomp : ((fun e : TwistedCheckerError => e.msg.data) ∘
        fun w : List Char => mkTwistedCheckerError ⟨w⟩) = id := by
      funext a
      show (mkTwistedCheckerError ⟨a⟩).msg.data = a
      rw [mkTCE_msg]
    rw [hcomp, List.map_id]

theorem save_keys (w : List (String × List TwistedCheckerError))
    (cm : Option String) (wcm : List (List Char))
    (hs : saveOk (w.map Prod.fst) cm wcm = true) :
    (saveModule w cm wcm).map Prod.fst = pushKey (w.map Prod.fst) cm := by
  cases cm with
  | none => simp [saveModule, pushKey]
  | some m =>
    simp only [saveOk, Bool.and_eq_true] at hs
    obtain ⟨⟨hne, hnotin⟩, _⟩ := hs
    rw [Bool.not_eq_true'] at hne hnotin
    have hmne : m ≠ "" := by
      rw [beq_eq_false_iff_ne] at hne
      exact hne
    have hmnotin : m ∉ w.map Prod.fst :=
      not_mem_of_contains_eq_false _ m hnotin
    simp only [saveModule, pushKey]
    rw [if_neg hmne, dictSet_append w m _ hmnotin]
    simp

theorem joinSep_cons_ne (sep : Char) (x : List Char) (X : List (List Char))
    (hX : X ≠ []) : joinSep sep (x :: X) = x ++ sep :: joinSep sep X := by
  cases X with
  | nil => exact absurd rfl hX
  | cons y ys => rfl

theorem joinSep_append_ne (sep : Char) :
    ∀ A B : List (List Char), A ≠ [] → B ≠ [] →
      joinSep sep (A ++ B) = joinSep sep A ++ sep :: joinSep sep B := by
  intro A
  induction A with
  | nil =>
    intro B h _
    exact absurd rfl h
  | cons a as ih =>
    intro B _ hB
    cases as with
    | nil =>
      simp only [List.cons_append, List.nil_append]
      rw [joinSep_cons_ne sep a B hB]
      rfl
    | cons a2 as2 =>
      rw [List.cons_append, joinSep_cons_ne sep a ((a2 :: as2) ++ B) (by simp),
        ih B (by simp) hB, joinSep_cons_ne sep a (a2 :: as2) (by simp)]
      simp [List.append_assoc]

theorem appendToLast_cons_ne (h : List Char) (B : List (List Char)) (l : List Char)
    (hB : B ≠ []) :
    CheckCodesByTwistedChecker.appendToLast (h :: B) l =
      h :: CheckCodesByTwistedChecker.appendToLast B l := by
  cases B with
  | nil => exact absurd rfl hB
  | cons b bs => rfl

theorem appendToLast_ne_nil (B : List (List Char)) (l : List Char) (hB : B ≠ []) :
    CheckCodesByTwistedChecker.appendToLast B l ≠ [] := by
  cases B with
  | nil => exact absurd rfl hB
  | cons w ws =>
    cases ws <;> simp [CheckCodesByTwistedChecker.appendToLast]

theorem joinSep_appendToLast :
    ∀ (B : List (List Char)) (l : List Char), B ≠ [] →
      joinSep '\n' (CheckCodesByTwistedChecker.appendToLast B l) =
        joinSep '\n' (B ++ [l]) := by
  intro B
  induction B with
  | nil =>
    intro l h
    exact absurd rfl h
  | cons w ws ih =>
    intro l _
    cases ws with
    | nil => rfl
    | cons w2 ws2 =>
      rw [appendToLast_cons_ne w (w2 :: ws2) l (by simp),
        joinSep_cons_ne '\n' w _ (appendToLast_ne_nil (w2 :: ws2) l (by simp)),
        ih l (by simp)]
      simp only [List.cons_append]
      rw [joinSep_cons_ne '\n' w (w2 :: (ws2 ++ [l])) (by simp)]

theorem joinSep_mid_congr (sep : Char) (X M1 M2 Y : List (List Char))
    (h1 : M1 ≠ []) (h2 : M2 ≠ []) (hM : joinSep sep M1 = joinSep sep M2) :
    joinSep sep (X ++ M1 ++ Y) = joinSep sep (X ++ M2 ++ Y) := by
  by_cases hX : X = []
  · subst hX
    simp only [List.nil_append]
    by_cases hY : Y = []
    · subst hY
      simp only [List.append_nil]
      exact hM
    · rw [joinSep_append_ne sep M1 Y h1 hY, joinSep_append_ne sep M2 Y h2 hY, hM]
  · by_cases hY : Y = []
    · subst hY
      simp only [List.append_nil]
      rw [joinSep_append_ne sep X M1 hX h1, joinSep_append_ne sep X M2 hX h2, hM]
    · have hm1 : M1 ++ Y ≠ [] := fun hc => h1 (List.append_eq_nil.mp hc).1
      have hm2 : M2 ++ Y ≠ [] := fun hc => h2 (List.append_eq_nil.mp hc).1
      rw [List.append_assoc, List.append_assoc,
        joinSep_append_ne sep X (M1 ++ Y) hX hm1,
        joinSep_append_ne sep X (M2 ++ Y) hX hm2,
        joinSep_append_ne sep M1 Y h1 hY, joinSep_append_ne sep M2 Y h2 hY, hM]

theorem loop_reconstruct :
    ∀ (ls : List (List Char)) (w : List (String × List TwistedCheckerError))
      (cm : Option String) (wcm : List (List Char)),
      wfWalk ls (w.map Prod.fst) cm wcm = true →
      (cm = none → wcm = []) →
      joinSep '\n' (reconstructPieces (computeErrorsLoop ls w cm wcm)) =
        joinSep '\n' (reconstructPieces w ++ blockPieces cm wcm ++ ls) := by
  intro ls
  induction ls with
  | nil =>
    intro w cm wcm hwf _
    have hs : saveOk (w.map Prod.fst) cm wcm = true := hwf
    show joinSep '\n' (reconstructPieces (saveModule w cm wcm)) = _
    rw [save_pieces w cm wcm hs, List.append_nil]
  | cons line rest ih =>
    intro w cm wcm hwf hinv
    by_cases hhdr : prefixModuleName.isPrefixOf line = true
    · have hloop : computeErrorsLoop (line :: rest) w cm wcm =
          computeErrorsLoop rest (saveModule w cm wcm)
            (some ⟨replaceOcc prefixModuleName line⟩) [] := by
        simp [computeErrorsLoop, hhdr]
      simp only [wfWalk, hhdr, if_true, Bool.and_eq_true] at hwf
      obtain ⟨⟨hs, hh⟩, hrest⟩ := hwf
      have hkeys : (saveModule w cm wcm).map Prod.fst = pushKey (w.map Prod.fst) cm :=
        save_keys w cm wcm hs
      have hline : prefixModuleName ++ replaceOcc prefixModuleName line = line := by
        unfold headerOk at hh
        exact beq_iff_eq.mp hh
      have hbp : blockPieces (some (⟨replaceOcc prefixModuleName line⟩ : String)) [] =
          [line] := by
        show (prefixModuleName ++ replaceOcc prefixModuleName line) :: [] = [line]
        rw [hline]
      rw [hloop, ih (saveModule w cm wcm) (some ⟨replaceOcc prefixModuleName line⟩) []
        (by rw [hkeys]; exact hrest) (by intro hc; exact absurd hc (by simp)),
        save_pieces w cm wcm hs, hbp]
      congr 1
      simp [List.append_assoc]
    · rw [Bool.not_eq_true] at hhdr
      by_cases hfind : lineStartsFinding line = true
      · have hloop : computeErrorsLoop (line :: rest) w cm wcm =
            computeErrorsLoop rest w cm (wcm ++ [line]) := by
          simp [computeErrorsLoop, hhdr, hfind]
        simp only [wfWalk, hhdr, Bool.false_eq_true, if_false, hfind, if_true,
          Bool.and_eq_true] at hwf
        obtain ⟨hsome, hrest⟩ := hwf
        obtain ⟨m, hm⟩ := Option.isSome_iff_exists.mp hsome
        subst hm
        rw [hloop, ih w (some m) (wcm ++ [line]) hrest
          (by intro hc; exact absurd hc (by simp))]
        have hlists : reconstructPieces w ++ blockPieces (some m) (wcm ++ [line]) ++ rest =
            reconstructPieces w ++ blockPieces (some m) wcm ++ (line :: rest) := by
          simp [blockPieces, List.append_assoc]
        rw [hlists]
      · rw [Bool.not_eq_true] at hfind
        have hwcmE : wcm.isEmpty = false := by
          cases hW : wcm.isEmpty with
          | false => rfl
          | true =>
            exfalso
            simp only [wfWalk, hhdr, Bool.false_eq_true, if_false, hfind, hW,
              Bool.not_true, Bool.and_eq_true] at hwf
            exact absurd hwf.1 (by simp)
        have hwcm : wcm ≠ [] := by
          intro hc
          rw [hc] at hwcmE
          exact absurd hwcmE (by simp)
        have hloop : computeErrorsLoop (line :: rest) w cm wcm =
            computeErrorsLoop rest w cm (appendToLast wcm line) := by
          simp [computeErrorsLoop, hhdr, hfind, hwcmE]
        simp only [wfWalk, hhdr, Bool.false_eq_true, if_false, hfind, hwcmE,
          Bool.not_false, Bool.and_eq_true, true_and] at hwf
        obtain ⟨m, hm⟩ : ∃ m, cm = some m := by
          cases cm with
          | none => exact absurd (hinv rfl) hwcm
          | some m => exact ⟨m, rfl⟩
        subst hm
        rw [hloop, ih w (some m) (appendToLast wcm line) hwf
          (by intro hc; exact absurd hc (by simp))]
        have e1 : blockPieces (some m) (appendToLast wcm line) =
            appendToLast ((prefixModuleName ++ m.data) :: wcm) line := by
          simp only [blockPieces]
          rw [appendToLast_cons_ne _ wcm line hwcm]
        have e2 : reconstructPieces w ++ blockPieces (some m) wcm ++ (line :: rest) =
            reconstructPieces w ++ (((prefixModuleName ++ m.data) :: wcm) ++ [line]) ++ rest := by
          simp [blockPieces, List.append_assoc]
        rw [e1, e2]
        exact joinSep_mid_congr '\n' (reconstructPieces w)
          (appendToLast ((prefixModuleName ++ m.data) :: wcm) line)
          (((prefixModuleName ++ m.data) :: wcm) ++ [line]) rest
          (appendToLast_ne_nil _ line (by simp)) (by simp)
          (joinSep_appendToLast _ line (by simp))

end CheckCodesByTwistedChecker

theorem dictGet_cons {K V : Type} [BEq K] (a : K × List V) (d : List (K × List V))
    (k : K) : dictGet (a :: d) k = if k == a.1 then a.2 else dictGet d k := by
  simp only [dictGet, List.lookup]
  cases k == a.1 <;> rfl

theorem dictAddToSet_mem {K V : Type} [BEq K] [LawfulBEq K] [BEq V] [LawfulBEq V]
    (d : List (K × List V)) (k0 : K) (v0 : V) (k : K) (v : V) :
    v ∈ dictGet (dictAddToSet d k0 v0) k ↔ (k = k0 ∧ v = v0) ∨ v ∈ dictGet d k := by
  induction d with
  | nil =>
    rw [show dictAddToSet ([] : List (K × List V)) k0 v0 = [(k0, [v0])] from rfl,
      dictGet_cons]
    by_cases hk : k = k0
    · rw [if_pos (by simp only [beq_iff_eq]; exact hk)]
      simp [dictGet, List.lookup, hk]
    · rw [if_neg (by simp only [beq_iff_eq]; exact hk)]
      simp [dictGet, List.lookup, hk]
  | cons kv rest ih =>
    by_cases h0 : k0 = kv.1
    · by_cases hc : kv.2.contains v0 = true
      · have hstep : dictAddToSet (kv :: rest) k0 v0 = kv :: rest := by
          simp only [dictAddToSet]
          rw [if_pos (by simp only [beq_iff_eq]; exact h0), if_pos hc, Prod.mk.eta]
        rw [hstep]
        simp only [dictGet_cons]
        by_cases hk : k = kv.1
        · rw [if_pos (by simp only [beq_iff_eq]; exact hk)]
          constructor
          · intro hv
            exact Or.inr hv
          · rintro (⟨_, hv⟩ | hv)
            · rw [hv]
              exact List.elem_iff.mp hc
            · exact hv
        · rw [if_neg (by simp only [beq_iff_eq]; exact hk)]
          have hkk0 : k ≠ k0 := fun hcx => hk (hcx.trans h0)
          constructor
          · intro hv
            exact Or.inr hv
          · rintro (⟨hcx, _⟩ | hv)
            · exact absurd hcx hkk0
            · exact hv
      · have hstep : dictAddToSet (kv :: rest) k0 v0 =
            (kv.1, kv.2 ++ [v0]) :: rest := by
          simp only [dictAddToSet]
          rw [if_pos (by simp only [beq_iff_eq]; exact h0), if_neg hc]
        rw [hstep]
        simp only [dictGet_cons]
        by_cases hk : k = kv.1
        · rw [if_pos (by simp only [beq_iff_eq]; exact hk),
            if_pos (by simp only [beq_iff_eq]; exact hk)]
          have hkk0 : k = k0 := hk.trans h0.symm
          constructor
          · intro hv
            rcases List.mem_append.mp hv with hv | hv
            · exact Or.inr hv
            · exact Or.inl ⟨hkk0, List.mem_singleton.mp hv⟩
          · rintro (⟨_, hv⟩ | hv)
            · exact List.mem_append_right _ (by rw [hv]; exact List.mem_singleton.mpr rfl)
            · exact List.mem_append_left _ hv
        · rw [if_neg (by simp only [beq_iff_eq]; exact hk),
            if_neg (by simp only [beq_iff_eq]; exact hk)]
          have hkk0 : k ≠ k0 := fun hcx => hk (hcx.trans h0)
          constructor
          · intro hv
            exact Or.inr hv
          · rintro (⟨hcx, _⟩ | hv)
            · exact absurd hcx hkk0
            · exact hv
    · have hstep : dictAddToSet (kv :: rest) k0 v0 =
          kv :: dictAddToSet rest k0 v0 := by
        simp only [dictAddToSet]
        rw [if_neg (by simp only [beq_iff_eq]; exact h0)]
      rw [hstep]
      simp only [dictGet_cons]
      by_cases hk : k = kv.1
      · rw [if_pos (by simp only [beq_iff_eq]; exact hk),
          if_pos (by simp only [beq_iff_eq]; exact hk)]
        have hkk0 : k ≠ k0 := fun hcx => h0 (hcx.symm.trans hk)
        constructor
        · intro hv
          exact Or.inr hv
        · rintro (⟨hcx, _⟩ | hv)
          · exact absurd hcx hkk0
          · exact hv
      · rw [if_neg (by simp only [beq_iff_eq]; exact hk),
          if_neg (by simp only [beq_iff_eq]; exact hk)]
        exact ih

theorem computeErrorsLines_go :
    ∀ (ls : List (List Char)) (acc m : List (String × List (List Char))),
      (ls.foldlM
        (fun errors line =>
          (CheckDocumentation.lineKV line).map fun kv? =>
            match kv? with
            | none => errors
            | some (k, v) => dictAddToSet errors k v)
        acc) = some m →
      ∀ k v, v ∈ dictGet m k ↔
        (v ∈ dictGet acc k ∨
          ∃ l ∈ ls, CheckDocumentation.lineKV l = some (some (k, v))) := by
  intro ls
  induction ls with
  | nil =>
    intro acc m h
    have hacc : acc = m := by
      simpa [List.foldlM] using h
    subst hacc
    intro k v
    simp
  | cons l rest ih =>
    intro acc m h
    rw [List.foldlM_cons] at h
    rcases Option.bind_eq_some.mp h with ⟨acc', hstep, hrest⟩
    intro k v
    rw [ih acc' m hrest k v]
    cases hkv : CheckDocumentation.lineKV l with
    | none =>
      rw [hkv] at hstep
      exact absurd hstep (by simp)
    | some kv? =>
      rw [hkv] at hstep
      simp only [Option.map_some'] at hstep
      have hacc' := Option.some.inj hstep
      cases kv? with
      | none =>
        rw [← hacc']
        constructor
        · rintro (h1 | ⟨l', hl', hkv'⟩)
          · exact Or.inl h1
          · exact Or.inr ⟨l', List.mem_cons_of_mem _ hl', hkv'⟩
        · rintro (h1 | ⟨l', hl', hkv'⟩)
          · exact Or.inl h1
          · rcases List.mem_cons.mp hl' with hl2 | hl2
            · rw [hl2] at hkv'
              rw [hkv] at hkv'
              exact absurd (Option.some.inj hkv') (by simp)
            · exact Or.inr ⟨l', hl2, hkv'⟩
      | some kv0 =>
        obtain ⟨k0, v0⟩ := kv0
        rw [← hacc', dictAddToSet_mem acc k0 v0 k v]
        constructor
        · rintro ((⟨hk, hv⟩ | h1) | ⟨l', hl', hkv'⟩)
          · exact Or.inr ⟨l, List.mem_cons_self _ _, by rw [hkv, hk, hv]⟩
          · exact Or.inl h1
          · exact Or.inr ⟨l', List.mem_cons_of_mem _ hl', hkv'⟩
        · rintro (h1 | ⟨l', hl', hkv'⟩)
          · exact Or.inl (Or.inr h1)
          · rcases List.mem_cons.mp hl' with hl2 | hl2
            · rw [hl2, hkv] at hkv'
              have h3 : (k0, v0) = (k, v) := by
                simpa using hkv'
              rw [Prod.mk.injEq] at h3
              exact Or.inl (Or.inl ⟨h3.1.symm, h3.2.symm⟩)
            · exact Or.inr ⟨l', hl2, hkv'⟩

/-- C6 counterexample: the pydoctor parser silently drops lines — on the
single non-whitespace line `"hello"` it produces no finding at all (the
returned map is empty), so concatenating the findings' raw text yields the
empty string, which does not reconstruct the input modulo whitespace. -/
theorem parser_drops_line_counterexample :
    CheckDocumentation.computeErrors "hello" = some [] ∧ pyStrip "hello".data ≠ [] := by
  constructor
  · rfl
  · decide

/-- C6 (amended): the twistedchecker parser accounts for every line of a
well-formed log — one whose saves lose nothing (non-empty fresh module names,
`==`-distinct findings per module), whose headers are invertible, whose
findings start inside a module and whose continuation lines follow a finding:
joining the parsed map's reconstructed pieces (module headers and raw finding
texts, in order) reproduces the joined input lines exactly.  The pydoctor
parser instead keeps exactly the lines carrying one of its two markers: a
value sits in the parsed map's group `k` iff some input line classifies to
`(k, v)` — every other line contributes nothing. -/
theorem parser_line_accounting :
    (∀ ls : List (List Char),
      CheckCodesByTwistedChecker.wfWalk ls [] none [] = true →
      joinSep '\n' (CheckCodesByTwistedChecker.reconstructPieces
        (CheckCodesByTwistedChecker.computeErrorsLoop ls [] none [])) =
      joinSep '\n' ls)
    ∧ (∀ (ls : List (List Char)) (m : List (String × List (List Char))),
        CheckDocumentation.computeErrorsLines ls = some m →
        ∀ k v, v ∈ dictGet m k ↔
          ∃ l ∈ ls, CheckDocumentation.lineKV l = some (some (k, v))) := by
  constructor
  · intro ls hwf
    have h := CheckCodesByTwistedChecker.loop_reconstruct ls [] none [] hwf (fun _ => rfl)
    simpa [CheckCodesByTwistedChecker.reconstructPieces,
      CheckCodesByTwistedChecker.blockPieces] using h
  · intro ls m h k v
    have h2 := computeErrorsLines_go ls [] m h k v
    rw [h2]
    simp [dictGet, List.lookup]

/-- Witness for C6 (amended): a well-formed twistedchecker log with a header,
two findings and a continuation line reconstructs exactly, and a pydoctor run
on one `'invalid ref'` line stores exactly its transformed value. -/
theorem parser_line_accounting_witness :
    (CheckCodesByTwistedChecker.wfWalk
        ["************* Module m".data, "W9001: 1,0: foo".data, "cont".data,
          "C0301: 2,0: bar".data] [] none [] = true
      ∧ joinSep '\n' (CheckCodesByTwistedChecker.reconstructPieces
          (CheckCodesByTwistedChecker.computeErrorsLoop
            ["************* Module m".data, "W9001: 1,0: foo".data, "cont".data,
              "C0301: 2,0: bar".data] [] none [])) =
        joinSep '\n' ["************* Module m".data, "W9001: 1,0: foo".data,
          "cont".data, "C0301: 2,0: bar".data])
    ∧ (CheckDocumentation.computeErrorsLines ["a:1 invalid ref to b".data] =
        some [("invalid ref", ["a: invalid ref to b".data])]
      ∧ ∀ k v, v ∈ dictGet [("invalid ref", ["a: invalid ref to b".data])] k ↔
          ∃ l ∈ [("a:1 invalid ref to b".data)],
            CheckDocumentation.lineKV l = some (some (k, v))) :=
  ⟨⟨by decide, parser_line_accounting.1 _ (by decide)⟩,
    ⟨by decide, parser_line_accounting.2 _ _ (by decide)⟩⟩

end TxBuildbot
